import Mathlib

/-!
# keygen: a two-tier ECDSA certificate bootstrap

A shallow embedding of `pkg/keygen/ecdsa.go`.  The functions of the package
(`generateECDSAKey`, `createRootCertificate`, `createLeafCertificate`,
`savePrivateKeyToPEM`, `savePublicKeyToPEM`, `saveCertificateToFile`,
`GenerateKeys`) are translated one to one; Go values that may be `nil` are
options, and a call ends in a value, a returned error or a panic.  What the
package calls in the Go standard library is modelled as follows:

* `crypto/ecdsa` and `crypto/x509` are a parameter `L : CryptoLib`; theorems
  about certificates assume the documented contract `CryptoLib.Lawful` (and,
  for the validity period, `CryptoLib.KeepsValidity`), and `refLib` is a
  symbolic instance of both used for concrete runs;
* `time.Now` reads the clock of an explicit `World`; `Time.AddDate` is the
  Gregorian calendar arithmetic of package `time` on the wall clock of the
  local time zone `World.Local`, a `Location` given by its `lookup`;
* `rand.Reader`, `os.Create`, the file writes and the two output streams act
  on the `World`; the content of a file is a list of characters;
* `encoding/pem` (`Encode`, `Decode`) and `encoding/base64` are modelled
  concretely, after their Go sources.

The definitions come first: the data model, the world, the library models, the
package itself, the contract and the reference instance of the library, and the
sample values of the concrete runs.  The theorems follow.
-/

namespace Keygen

/-! ## Data model -/

/-- A Go `byte`. -/
abbrev Byte := Fin 256

/-- A Go `[]byte`. -/
abbrev Bytes := List Byte

/-- The byte of a number, modulo 256. -/
def byteOf (n : Nat) : Byte := ⟨n % 256, Nat.mod_lt _ (by decide)⟩

/-- The instant of a `time.Time`: nanoseconds since 1970-01-01T00:00:00Z (negative
before that).  The location of the values returned by `time.Now()` is
`time.Local`; it is kept in the `World`. -/
abbrev Time := Int

/-- What `Location.lookup` returns for an instant: the offset of the zone in use
(seconds east of UTC) and the Unix seconds at which that zone goes into effect
and at which it ends. -/
structure Zone where
  offset : Int
  start : Int
  finish : Int
deriving DecidableEq, Repr

/-- A `time.Location`: the zone in use at each instant (in Unix seconds). -/
structure Location where
  lookup : Int → Zone

/-- The location `time.UTC`: offset 0 from the beginning to the end of time. -/
def UTC : Location := ⟨fun _ => ⟨0, -9223372036854775808, 9223372036854775807⟩⟩

/-- The result of a Go call: a value, a returned `error`, or a run-time panic. -/
inductive Outcome (α : Type) where
  | ok (val : α)
  | err (msg : String)
  | panic (msg : String)
deriving DecidableEq, Repr

/-- The named curves of `crypto/elliptic`. -/
inductive Curve where
  | P224
  | P256
  | P384
  | P521
deriving DecidableEq, Repr

/-- The `ecdsa.PublicKey` struct. -/
structure PublicKey where
  Curve : Curve
  X : Nat
  Y : Nat
deriving DecidableEq, Repr

/-- The `ecdsa.PrivateKey` struct: it embeds its `PublicKey`. -/
structure PrivateKey where
  PublicKey : PublicKey
  D : Nat
deriving DecidableEq, Repr

/-- The fields of `pkix.Name` that the package sets. -/
structure Name where
  CommonName : String := ""
  Organization : List String := []
  Country : List String := []
deriving DecidableEq, Repr

/-- The `x509.ExtKeyUsage` enumeration (the values the package uses come first, in
the order of the Go constants). -/
inductive ExtKeyUsage where
  | ExtKeyUsageAny
  | ExtKeyUsageServerAuth
  | ExtKeyUsageClientAuth
  | ExtKeyUsageCodeSigning
  | ExtKeyUsageEmailProtection
deriving DecidableEq, Repr

/-- The bit `x509.KeyUsageDigitalSignature`. -/
def KeyUsageDigitalSignature : Nat := 1

/-- The bit `x509.KeyUsageKeyEncipherment`. -/
def KeyUsageKeyEncipherment : Nat := 4

/-- The bit `x509.KeyUsageDataEncipherment`. -/
def KeyUsageDataEncipherment : Nat := 8

/-- The bit `x509.KeyUsageCertSign`. -/
def KeyUsageCertSign : Nat := 32

/-- The fields of `x509.Certificate` that the package sets or reads; the defaults
are Go's zero values. -/
structure Certificate where
  Raw : Bytes := []
  RawTBSCertificate : Bytes := []
  Signature : Bytes := []
  PublicKey : Option PublicKey := none
  SerialNumber : Option Int := none
  Issuer : Name := {}
  Subject : Name := {}
  NotBefore : Time := 0
  NotAfter : Time := 0
  KeyUsage : Nat := 0
  ExtKeyUsage : List ExtKeyUsage := []
  BasicConstraintsValid : Bool := false
  IsCA : Bool := false
deriving DecidableEq, Repr

/-- A `pem.Block` without headers. -/
structure Block where
  BlockType : String
  Bytes : Bytes
deriving DecidableEq, Repr

/-! ## The standard library as a parameter -/

/-- The operations of `crypto/ecdsa` and `crypto/x509` the package calls.  The
`Option Nat` argument is what `rand.Reader` hands to the call (`none`: the read
fails).  A `nil` parent certificate is `none`. -/
structure CryptoLib where
  GenerateKey : Curve → Option Nat → Outcome PrivateKey
  CreateCertificate :
    Option Nat → Certificate → Option Certificate → PublicKey → PrivateKey → Outcome Bytes
  ParseCertificate : Bytes → Outcome Certificate
  MarshalECPrivateKey : PrivateKey → Outcome Bytes
  MarshalPKIXPublicKey : PublicKey → Outcome Bytes
  CheckSignature : PublicKey → Bytes → Bytes → Bool

/-! ## The world: clock, entropy, file system, output streams -/

/-- Everything outside the process that a run reads or changes. -/
structure World where
  /-- The successive readings of `time.Now()`. -/
  clock : Nat → Time
  /-- The time zone of the machine, `time.Local`. -/
  Local : Location
  /-- How many readings were taken. -/
  ticks : Nat := 0
  /-- The successive reads of `rand.Reader`; `none` is a failed read. -/
  entropy : Nat → Option Nat
  /-- How many reads were made. -/
  draws : Nat := 0
  /-- The content of each file, `none` when it does not exist. -/
  files : String → Option (List Char)
  /-- The paths at which `os.Create` fails. -/
  denied : String → Bool
  /-- The number of bytes that can be written to a path (`none`: no limit). -/
  quota : String → Option Nat
  /-- The paths created by `os.Create`, oldest first. -/
  journal : List String := []
  stdout : List String := []
  stderr : List String := []

/-- What `time.Now()` does. -/
def timeNow (w : World) : Time × World :=
  (w.clock w.ticks, { w with ticks := w.ticks + 1 })

/-- One read of `rand.Reader`. -/
def randRead (w : World) : Option Nat × World :=
  (w.entropy w.draws, { w with draws := w.draws + 1 })

/-- What `os.Create(path)` does: fail, or create/truncate the file. -/
def osCreate (path : String) (w : World) : Outcome Unit × World :=
  if w.denied path then
    (.err ("open " ++ path ++ ": permission denied"), w)
  else
    (.ok (), { w with files := Function.update w.files path (some []),
                      journal := w.journal ++ [path] })

/-- Writing `data` to the file just created at `path`: all of it, or as much as
the quota of the path admits and then an error. -/
def fileWrite (path : String) (data : List Char) (w : World) : Outcome Unit × World :=
  match w.quota path with
  | none => (.ok (), { w with files := Function.update w.files path (some data) })
  | some n =>
    if data.length ≤ n then
      (.ok (), { w with files := Function.update w.files path (some data) })
    else
      (.err ("write " ++ path ++ ": no space left on device"),
        { w with files := Function.update w.files path (some (data.take n)) })

/-- Appending a line to standard output (`fmt.Printf`). -/
def printOut (line : String) (w : World) : World :=
  { w with stdout := w.stdout ++ [line] }

/-- Appending a line to standard error (`fmt.Fprintf(os.Stderr, ...)`). -/
def printErr (line : String) (w : World) : World :=
  { w with stderr := w.stderr ++ [line] }

/-- The verb `%q` of package `fmt` on a path without special characters. -/
def quoted (s : String) : String := "\"" ++ s ++ "\""

/-! ## Package time: calendar arithmetic on the local wall clock -/

/-- The number of days from 1 March of year 0 to 1 March of year `Y`, summed as
`daysSinceEpoch` does: 400-year cycles, then 100-year cycles, then 4-year cycles,
then single years. -/
def daysBeforeYear (Y : Int) : Int :=
  146097 * (Y / 400) + 36524 * (Y % 400 / 100) + 1461 * (Y % 400 % 100 / 4)
    + 365 * (Y % 400 % 100 % 4)

/-- The number of days from 1970-01-01 to the first day of month `m` (1..12) of
year `y`, plus `d - 1`; a day `d` past the end of the month runs on into the
following months, as `time.Date` normalises it.  Years are counted from 1 March,
so that the leap day comes last. -/
def daysFromCivil (y m d : Int) : Int :=
  let y1 := if m ≤ 2 then y - 1 else y
  let mp := if m ≤ 2 then m + 9 else m - 3
  daysBeforeYear y1 + (153 * mp + 2) / 5 + d - 1 - 719468

/-- The March-based year and the day within it of the day `z1` days after
1 March of year 0, cut off as `absDate` does: 400-year cycles, 100-year cycles
(at most 3), 4-year cycles, single years (at most 3). -/
def yearCut (z1 : Int) : Int × Int :=
  let n400 := z1 / 146097
  let d400 := z1 % 146097
  let n100 := min (d400 / 36524) 3
  let d100 := d400 - 36524 * n100
  let n4 := d100 / 1461
  let d4 := d100 % 1461
  let n1 := min (d4 / 365) 3
  (400 * n400 + 100 * n100 + 4 * n4 + n1, d4 - 365 * n1)

/-- The civil date (year, month, day) of the day `z` days after 1970-01-01. -/
def civilFromDays (z : Int) : Int × Int × Int :=
  let y := (yearCut (z + 719468)).1
  let doy := (yearCut (z + 719468)).2
  let mp := (5 * doy + 2) / 153
  let d := doy - (153 * mp + 2) / 5 + 1
  let m := if mp < 10 then mp + 3 else mp - 9
  (if m ≤ 2 then y + 1 else y, m, d)

/-- The method `Time.AddDate(years, months, days)` of a time in the location
`loc`, on nanoseconds since the epoch.  As in the source, the date and the clock
are read off the wall clock of `loc` (`t.Date()`, `t.Clock()`: the instant plus
the offset in use at it), the year, month and day are increased and normalised,
and `Date(..., loc)` turns the wall-clock reading back into an instant: it
looks up the zone at the reading taken as if it were UTC and, when the reading
less that offset falls outside the zone found, looks the zone up again there. -/
def AddDate (loc : Location) (t : Int) (years months days : Int) : Int :=
  let nsec := t % 1000000000
  let sec := t / 1000000000
  let wall := sec + (loc.lookup sec).offset
  let sod := wall % 86400
  let y := (civilFromDays (wall / 86400)).1
  let m := (civilFromDays (wall / 86400)).2.1
  let d := (civilFromDays (wall / 86400)).2.2
  let m0 := m - 1 + months
  let y1 := y + years + m0 / 12
  let m1 := m0 % 12 + 1
  let unix := daysFromCivil y1 m1 (d + days) * 86400 + sod
  let z := loc.lookup unix
  let offset :=
    if z.offset ≠ 0 ∧ (unix - z.offset < z.start ∨ unix - z.offset ≥ z.finish) then
      (loc.lookup (unix - z.offset)).offset
    else z.offset
  (unix - offset) * 1000000000 + nsec

/-! ## Packages encoding/base64 and encoding/pem -/

/-- The alphabet of `base64.StdEncoding`. -/
def encodeStd : List Char :=
  "ABCDEFGHIJKLMNOPQRSTUVWXYZabcdefghijklmnopqrstuvwxyz0123456789+/".toList

/-- The character of a 6-bit value. -/
def b64Char (n : Nat) : Char := encodeStd.getD (n % 64) 'A'

/-- The method `base64.StdEncoding.EncodeToString`: three bytes give four
characters; a last group of one or two bytes is padded with `=`. -/
def b64Encode : Bytes → List Char
  | a :: b :: c :: rest =>
      b64Char (a.val / 4) :: b64Char (a.val % 4 * 16 + b.val / 16) ::
      b64Char (b.val % 16 * 4 + c.val / 64) :: b64Char (c.val % 64) :: b64Encode rest
  | [a, b] =>
      [b64Char (a.val / 4), b64Char (a.val % 4 * 16 + b.val / 16),
       b64Char (b.val % 16 * 4), '=']
  | [a] => [b64Char (a.val / 4), b64Char (a.val % 4 * 16), '=', '=']
  | [] => []

/-- The constant `pemLineLength` of `encoding/pem`. -/
def pemLineLength : Nat := 64

/-- The `lineBreaker` of `encoding/pem`: every `pemLineLength` characters, and
after a last shorter line, a newline is written. -/
def lineBreaker : Nat → List Char → List Char
  | 0, _ => []
  | fuel + 1, s =>
    if s = [] then [] else
      s.take pemLineLength ++ '\n' :: lineBreaker fuel (s.drop pemLineLength)

/-- The function `pem.EncodeToMemory`; `pem.Encode` writes the same text. -/
def pemEncode (b : Block) : List Char :=
  "-----BEGIN ".toList ++ b.BlockType.toList ++ "-----\n".toList ++
  lineBreaker (b64Encode b.Bytes).length (b64Encode b.Bytes) ++
  "-----END ".toList ++ b.BlockType.toList ++ "-----\n".toList

/-- The function `bytes.TrimRight(s, " \t")`. -/
def trimRight (s : List Char) : List Char :=
  (s.reverse.dropWhile (fun c => c == ' ' || c == '\t')).reverse

/-- The characters that the decoder treats specially, none of which is in the
alphabet. -/
def special (c : Char) : Bool :=
  c == '=' || c == '\n' || c == '\r' || c == '-' || c == ':' || c == ' ' || c == '\t'

/-- The file format in the words of the specification, with the line width as a
parameter: a line `-----BEGIN <LABEL>-----`, then the base64 text of the payload
in lines of which all but the last have exactly `width` characters and the last
has from 1 to `width`, then a line `-----END <LABEL>-----`. -/
def PemLayout (width : Nat) (label : String) (der : Bytes) (text : List Char) : Prop :=
  ∃ body : List (List Char),
    text = "-----BEGIN ".toList ++ label.toList ++ "-----\n".toList ++
      (body.map (fun l => l ++ ['\n'])).flatten ++
      "-----END ".toList ++ label.toList ++ "-----\n".toList ∧
    body.flatten = b64Encode der ∧
    (∀ l ∈ body, '\n' ∉ l ∧ 0 < l.length ∧ l.length ≤ width) ∧
    (∀ l ∈ body.dropLast, l.length = width)

/-! ## The package keygen -/

/-- The function `generateECDSAKey`. -/
def generateECDSAKey (L : CryptoLib) (c : Curve) (w : World) : Outcome PrivateKey × World :=
  let (r, w) := randRead w
  match L.GenerateKey c r with
  | .ok privateKey => (.ok privateKey, w)
  | .err e => (.err ("ecdsa.GenerateKey: " ++ e), w)
  | .panic m => (.panic m, w)

/-- The subject and issuer name written in `createRootCertificate`, and the issuer
name written in `createLeafCertificate`. -/
def rootName : Name :=
  { CommonName := "Root Common Name",
    Organization := ["Root Organisation Name"],
    Country := ["Country"] }

/-- The subject name written in `createLeafCertificate`. -/
def leafName : Name :=
  { CommonName := "Leaf Common Name",
    Organization := ["Leaf Organisation Name"],
    Country := ["Country"] }

/-- The `rootTemplate` of `createRootCertificate`; `t1` and `t2` are the two
readings of `time.Now()` and `loc` is their location, `time.Local`. -/
def rootTemplate (loc : Location) (t1 t2 : Time) : Certificate :=
  { SerialNumber := some 1,
    Subject :=
      { CommonName := "Root Common Name",
        Organization := ["Root Organisation Name"],
        Country := ["Country"] },
    Issuer :=
      { CommonName := "Root Common Name",
        Organization := ["Root Organisation Name"],
        Country := ["Country"] },
    NotBefore := t1,
    NotAfter := AddDate loc t2 5 0 0,
    KeyUsage := KeyUsageKeyEncipherment,
    ExtKeyUsage := [ExtKeyUsage.ExtKeyUsageAny],
    BasicConstraintsValid := true }

/-- The function `createRootCertificate`. -/
def createRootCertificate (L : CryptoLib) (key : PrivateKey) (w : World) :
    Outcome Certificate × World :=
  let (t1, w) := timeNow w
  let (t2, w) := timeNow w
  let rootTemplate := rootTemplate w.Local t1 t2
  let (r, w) := randRead w
  match L.CreateCertificate r rootTemplate (some rootTemplate) key.PublicKey key with
  | .err e => (.err ("failed to create certificate: " ++ e), w)
  | .panic m => (.panic m, w)
  | .ok certDER =>
    match L.ParseCertificate certDER with
    | .err e => (.err ("failed to parse certificate: " ++ e), w)
    | .panic m => (.panic m, w)
    | .ok cert => (.ok cert, w)

/-- The `leafTemplate` of `createLeafCertificate`; `t1` and `t2` are the two
readings of `time.Now()` and `loc` is their location, `time.Local`. -/
def leafTemplate (loc : Location) (t1 t2 : Time) : Certificate :=
  { SerialNumber := some 1,
    Subject :=
      { CommonName := "Leaf Common Name",
        Organization := ["Leaf Organisation Name"],
        Country := ["Country"] },
    Issuer :=
      { CommonName := "Root Common Name",
        Organization := ["Root Organisation Name"],
        Country := ["Country"] },
    NotBefore := t1,
    NotAfter := AddDate loc t2 2 0 0,
    KeyUsage := KeyUsageDigitalSignature ||| KeyUsageDataEncipherment ||| KeyUsageKeyEncipherment,
    ExtKeyUsage :=
      [ExtKeyUsage.ExtKeyUsageServerAuth, ExtKeyUsage.ExtKeyUsageClientAuth,
       ExtKeyUsage.ExtKeyUsageCodeSigning, ExtKeyUsage.ExtKeyUsageEmailProtection],
    BasicConstraintsValid := true }

/-- The function `createLeafCertificate`. -/
def createLeafCertificate (L : CryptoLib) (parentCert : Option Certificate)
    (leafPub : PublicKey) (signerKey : PrivateKey) (w : World) :
    Outcome Certificate × World :=
  let (t1, w) := timeNow w
  let (t2, w) := timeNow w
  let leafTemplate := leafTemplate w.Local t1 t2
  let (r, w) := randRead w
  match L.CreateCertificate r leafTemplate parentCert leafPub signerKey with
  | .err e => (.err ("failed to create certificate: " ++ e), w)
  | .panic m => (.panic m, w)
  | .ok certDER =>
    match L.ParseCertificate certDER with
    | .err e => (.err ("failed to parse certificate: " ++ e), w)
    | .panic m => (.panic m, w)
    | .ok cert => (.ok cert, w)

/-- The tail shared by the three save functions: `os.Create`, then `pem.Encode`
into the file (`defer file.Close()` releases the handle on both paths). -/
def writePEM (block : Block) (path : String) (w : World) : Outcome Unit × World :=
  match osCreate path w with
  | (.err e, w) => (.err ("os.Create: " ++ e), w)
  | (.panic m, w) => (.panic m, w)
  | (.ok (), w) =>
    match fileWrite path (pemEncode block) w with
    | (.err e, w) => (.err ("pem.Encode: " ++ e), w)
    | (.panic m, w) => (.panic m, w)
    | (.ok (), w) => (.ok (), w)

/-- The function `savePrivateKeyToPEM`. -/
def savePrivateKeyToPEM (L : CryptoLib) (privateKey : PrivateKey) (privateKeyPath : String)
    (w : World) : Outcome Unit × World :=
  match L.MarshalECPrivateKey privateKey with
  | .err e => (.err ("x509.MarshalECPrivateKey: " ++ e), w)
  | .panic m => (.panic m, w)
  | .ok der => writePEM { BlockType := "EC PRIVATE KEY", Bytes := der } privateKeyPath w

/-- The function `savePublicKeyToPEM`. -/
def savePublicKeyToPEM (L : CryptoLib) (publicKey : PublicKey) (publicKeyPath : String)
    (w : World) : Outcome Unit × World :=
  match L.MarshalPKIXPublicKey publicKey with
  | .err e => (.err ("x509.MarshalPKIXPublicKey: " ++ e), w)
  | .panic m => (.panic m, w)
  | .ok der => writePEM { BlockType := "EC PUBLIC KEY", Bytes := der } publicKeyPath w

/-- The message of the panic raised by reading a field through a `nil` pointer. -/
def nilDereference : String :=
  "runtime error: invalid memory address or nil pointer dereference"

/-- The function `saveCertificateToFile`; `cert.Raw` on a `nil` certificate
panics before the file is created. -/
def saveCertificateToFile (cert : Option Certificate) (certPath : String) (w : World) :
    Outcome Unit × World :=
  match cert with
  | none => (.panic nilDereference, w)
  | some cert => writePEM { BlockType := "CERTIFICATE", Bytes := cert.Raw } certPath w

/-- How a run of `GenerateKeys` ends. -/
inductive Exit where
  | returned
  | panicked (msg : String)
deriving DecidableEq, Repr

/-- The persistence half of `GenerateKeys` (from the first `savePrivateKeyToPEM`
on): six saves in sequence, each followed by `return` on error and by a
confirmation line otherwise. -/
def saveAll (L : CryptoLib) (rootPrivateKey : PrivateKey) (rootCert : Option Certificate)
    (leafPrivateKey : PrivateKey) (leafCert : Option Certificate) (w : World) : Exit × World :=
  let rootPrivateKeyPath := "root_private_ecdsa.pem"
  match savePrivateKeyToPEM L rootPrivateKey rootPrivateKeyPath w with
  | (.panic m, w) => (.panicked m, w)
  | (.err e, w) => (.returned, printErr ("savePrivateKeyToPEM: " ++ e ++ "\n") w)
  | (.ok (), w) =>
  let w := printOut ("ECDSA private key saved to " ++ quoted rootPrivateKeyPath ++ "\n") w
  let rootPublicKeyPath := "root_public_ecdsa.pem"
  match savePublicKeyToPEM L rootPrivateKey.PublicKey rootPublicKeyPath w with
  | (.panic m, w) => (.panicked m, w)
  | (.err e, w) => (.returned, printErr ("savePublicKeyToPEM: " ++ e ++ "\n") w)
  | (.ok (), w) =>
  let w := printOut ("ECDSA public key saved to " ++ quoted rootPublicKeyPath ++ "\n") w
  let rootCertPath := "root_cert_ecdsa.pem"
  match saveCertificateToFile rootCert rootCertPath w with
  | (.panic m, w) => (.panicked m, w)
  | (.err e, w) => (.returned, printErr ("saveCertificateToFile: " ++ e ++ "\n") w)
  | (.ok (), w) =>
  let w := printOut ("ECDSA root certificate saved to " ++ quoted rootCertPath ++ "\n") w
  let leafPrivateKeyPath := "leaf_private_ecdsa.pem"
  match savePrivateKeyToPEM L leafPrivateKey leafPrivateKeyPath w with
  | (.panic m, w) => (.panicked m, w)
  | (.err e, w) => (.returned, printErr ("savePrivateKeyToPEM: " ++ e ++ "\n") w)
  | (.ok (), w) =>
  let w := printOut ("ECDSA private key saved to " ++ quoted leafPrivateKeyPath ++ "\n") w
  let leafPublicKeyPath := "leaf_public_ecdsa.pem"
  match savePublicKeyToPEM L leafPrivateKey.PublicKey leafPublicKeyPath w with
  | (.panic m, w) => (.panicked m, w)
  | (.err e, w) => (.returned, printErr ("savePublicKeyToPEM: " ++ e ++ "\n") w)
  | (.ok (), w) =>
  let w := printOut ("ECDSA public key saved to " ++ quoted leafPublicKeyPath ++ "\n") w
  let leafCertPath := "leaf_cert_ecdsa.pem"
  match saveCertificateToFile leafCert leafCertPath w with
  | (.panic m, w) => (.panicked m, w)
  | (.err e, w) => (.returned, printErr ("saveCertificateToFile: " ++ e ++ "\n") w)
  | (.ok (), w) =>
  (.returned, printOut ("ECDSA root certificate saved to " ++ quoted leafCertPath ++ "\n") w)

/-- The function `GenerateKeys`.  After a failed `createRootCertificate` or
`createLeafCertificate` the error is printed and, there being no `return`, the
run goes on with a `nil` certificate. -/
def GenerateKeys (L : CryptoLib) (w : World) : Exit × World :=
  match generateECDSAKey L Curve.P256 w with
  | (.panic m, w) => (.panicked m, w)
  | (.err e, w) => (.returned, printErr ("generateECDSAKeys: " ++ e ++ "\n") w)
  | (.ok rootPrivateKey, w) =>
  match (match createRootCertificate L rootPrivateKey w with
         | (.panic m, w) => (Sum.inl m, w)
         | (.err e, w) => (Sum.inr none, printErr ("createRootCertificate: " ++ e ++ "\n") w)
         | (.ok cert, w) => (Sum.inr (some cert), w)) with
  | (Sum.inl m, w) => (.panicked m, w)
  | (Sum.inr rootCert, w) =>
  match generateECDSAKey L Curve.P256 w with
  | (.panic m, w) => (.panicked m, w)
  | (.err e, w) => (.returned, printErr ("generateECDSAKeys: " ++ e ++ "\n") w)
  | (.ok leafPrivateKey, w) =>
  match (match createLeafCertificate L rootCert leafPrivateKey.PublicKey rootPrivateKey w with
         | (.panic m, w) => (Sum.inl m, w)
         | (.err e, w) => (Sum.inr none, printErr ("createLeafCertificate: " ++ e ++ "\n") w)
         | (.ok cert, w) => (Sum.inr (some cert), w)) with
  | (Sum.inl m, w) => (.panicked m, w)
  | (Sum.inr leafCert, w) =>
  saveAll L rootPrivateKey rootCert leafPrivateKey leafCert w

/-! ## The contract of the standard library -/

/-- What the documentation of `crypto/x509` promises of `CreateCertificate` and
`ParseCertificate`: the certificate is signed by the parent, so its issuer is the
subject of the parent; its subject, key usage and basic constraints come from the
template; `pub` is the public key of the certificate; the signature verifies
under the public key of the signer `priv`; and `Raw` is the complete DER. -/
structure CryptoLib.Lawful (L : CryptoLib) : Prop where
  create_parse : ∀ r tmpl parent pub priv der cert,
    L.CreateCertificate r tmpl (some parent) pub priv = Outcome.ok der →
    L.ParseCertificate der = Outcome.ok cert →
      cert.Raw = der ∧ cert.Subject = tmpl.Subject ∧ cert.Issuer = parent.Subject ∧
      cert.PublicKey = some pub ∧ cert.KeyUsage = tmpl.KeyUsage % 512 ∧
      cert.BasicConstraintsValid = tmpl.BasicConstraintsValid ∧
      cert.IsCA = (tmpl.BasicConstraintsValid && tmpl.IsCA) ∧
      L.CheckSignature priv.PublicKey cert.RawTBSCertificate cert.Signature = true

/-- Whether `parent` may act as an issuer (RFC 5280, 4.2.1.9 and 4.2.1.3, the
first two tests of `Certificate.CheckSignatureFrom`): a basic constraints
extension that is present must assert `cA`, and a key usage extension that
is present must contain `keyCertSign`. -/
def acceptedAsIssuer (parent : Certificate) : Bool :=
  !(parent.BasicConstraintsValid && !parent.IsCA) &&
  !(parent.KeyUsage != 0 && parent.KeyUsage &&& KeyUsageCertSign == 0)

/-- Whether the signature on `c` verifies under the public key of `parent`. -/
def signedBy (L : CryptoLib) (c parent : Certificate) : Bool :=
  match parent.PublicKey with
  | some pk => L.CheckSignature pk c.RawTBSCertificate c.Signature
  | none => false

/-- Chain verification of `leaf` against the trust anchor `root`: the issuer of
the leaf is the subject of the root, the root is accepted as an issuer, and the
signature of the leaf verifies under the key of the root. -/
def verifyChain (L : CryptoLib) (leaf root : Certificate) : Bool :=
  decide (leaf.Issuer = root.Subject) && acceptedAsIssuer root && signedBy L leaf root

/-! ## A reference instance of the library

A symbolic stand-in for `crypto/ecdsa` and `crypto/x509`: a public key is an
injective function of the private scalar, a signature names the key that made
it and the bytes it covers, and DER is replaced by a length-prefixed byte
encoding. -/

/-- Base-128 digits, least significant first, all but the last with the top bit
set. -/
def putNatAux : Nat → Nat → Bytes
  | 0, n => [byteOf (n % 128)]
  | fuel + 1, n =>
    if n < 128 then [byteOf n] else byteOf (n % 128 + 128) :: putNatAux fuel (n / 128)

/-- The encoding of a natural number. -/
def putNat (n : Nat) : Bytes := putNatAux n n

/-- Reading a natural number off the front of a byte string. -/
def getNat : Bytes → Option (Nat × Bytes)
  | [] => none
  | b :: rest =>
    if b.val < 128 then some (b.val, rest)
    else
      match getNat rest with
      | some (n, rest1) => some (b.val - 128 + 128 * n, rest1)
      | none => none

/-- An encoder and a decoder that reads one value off the front of the input. -/
structure Wire (α : Type) where
  put : α → Bytes
  get : Bytes → Option (α × Bytes)

/-- The decoder undoes the encoder and leaves what follows untouched. -/
def Wire.Exact {α : Type} (c : Wire α) : Prop :=
  ∀ a rest, c.get (c.put a ++ rest) = some (a, rest)

/-- Natural numbers on the wire. -/
def wireNat : Wire Nat := ⟨putNat, getNat⟩

/-- Transport along a pair of maps. -/
def Wire.via {α β : Type} (c : Wire α) (f : β → α) (g : α → β) : Wire β :=
  ⟨fun b => c.put (f b),
   fun bs => match c.get bs with
     | some (a, rest) => some (g a, rest)
     | none => none⟩

/-- One value after another. -/
def Wire.seq {α β : Type} (c : Wire α) (d : Wire β) : Wire (α × β) :=
  ⟨fun p => c.put p.1 ++ d.put p.2,
   fun bs => match c.get bs with
     | some (a, rest) =>
       (match d.get rest with
        | some (b, rest1) => some ((a, b), rest1)
        | none => none)
     | none => none⟩

/-- Reading `n` values. -/
def getMany {α : Type} (c : Wire α) : Nat → Bytes → Option (List α × Bytes)
  | 0, bs => some ([], bs)
  | n + 1, bs =>
    match c.get bs with
    | some (a, rest) =>
      (match getMany c n rest with
       | some (l, rest1) => some (a :: l, rest1)
       | none => none)
    | none => none

/-- Writing the values of a list one after another. -/
def putMany {α : Type} (c : Wire α) : List α → Bytes
  | [] => []
  | a :: l => c.put a ++ putMany c l

/-- A list: its length, then its elements. -/
def Wire.list {α : Type} (c : Wire α) : Wire (List α) :=
  ⟨fun l => putNat l.length ++ putMany c l,
   fun bs => match getNat bs with
     | some (n, rest) => getMany c n rest
     | none => none⟩

/-- Bytes on the wire. -/
def wireByte : Wire Byte := wireNat.via Fin.val byteOf

/-- Booleans on the wire. -/
def wireBool : Wire Bool := wireNat.via (fun b => if b then 1 else 0) (fun n => decide (n = 1))

/-- Integers on the wire: the sign, then the absolute value. -/
def wireInt : Wire Int :=
  (wireBool.seq wireNat).via (fun i => (decide (i < 0), i.natAbs))
    (fun p => if p.1 then -(p.2 : Int) else (p.2 : Int))

/-- Strings on the wire. -/
def wireString : Wire String :=
  (Wire.list (wireNat.via Char.toNat Char.ofNat)).via String.toList String.mk

/-- Names on the wire. -/
def wireName : Wire Name :=
  (wireString.seq ((Wire.list wireString).seq (Wire.list wireString))).via
    (fun n => (n.CommonName, n.Organization, n.Country))
    (fun p => ⟨p.1, p.2.1, p.2.2⟩)

/-- The number of a curve. -/
def curveCode : Curve → Nat
  | .P224 => 0
  | .P256 => 1
  | .P384 => 2
  | .P521 => 3

/-- The curve of a number. -/
def curveOfCode : Nat → Curve
  | 0 => .P224
  | 1 => .P256
  | 2 => .P384
  | _ => .P521

/-- Public keys on the wire. -/
def wirePublicKey : Wire PublicKey :=
  (wireNat.seq (wireNat.seq wireNat)).via
    (fun k => (curveCode k.Curve, k.X, k.Y))
    (fun p => ⟨curveOfCode p.1, p.2.1, p.2.2⟩)

/-- The number of an extended key usage. -/
def ekuCode : ExtKeyUsage → Nat
  | .ExtKeyUsageAny => 0
  | .ExtKeyUsageServerAuth => 1
  | .ExtKeyUsageClientAuth => 2
  | .ExtKeyUsageCodeSigning => 3
  | .ExtKeyUsageEmailProtection => 4

/-- The extended key usage of a number. -/
def ekuOfCode : Nat → ExtKeyUsage
  | 0 => .ExtKeyUsageAny
  | 1 => .ExtKeyUsageServerAuth
  | 2 => .ExtKeyUsageClientAuth
  | 3 => .ExtKeyUsageCodeSigning
  | _ => .ExtKeyUsageEmailProtection

/-- What a certificate says before it is signed. -/
structure TBS where
  SerialNumber : Nat
  Issuer : Name
  Subject : Name
  NotBefore : Int
  NotAfter : Int
  PublicKey : PublicKey
  KeyUsage : Nat
  ExtKeyUsage : List ExtKeyUsage
  BasicConstraintsValid : Bool
  IsCA : Bool
deriving DecidableEq, Repr

/-- The to-be-signed part on the wire. -/
def wireTBS : Wire TBS :=
  (wireNat.seq (wireName.seq (wireName.seq (wireInt.seq (wireInt.seq (wirePublicKey.seq
    (wireNat.seq ((Wire.list (wireNat.via ekuCode ekuOfCode)).seq
      (wireBool.seq wireBool))))))))).via
    (fun t => (t.SerialNumber, t.Issuer, t.Subject, t.NotBefore, t.NotAfter, t.PublicKey,
               t.KeyUsage, t.ExtKeyUsage, t.BasicConstraintsValid, t.IsCA))
    (fun p => ⟨p.1, p.2.1, p.2.2.1, p.2.2.2.1, p.2.2.2.2.1, p.2.2.2.2.2.1, p.2.2.2.2.2.2.1,
               p.2.2.2.2.2.2.2.1, p.2.2.2.2.2.2.2.2.1, p.2.2.2.2.2.2.2.2.2⟩)

/-- A signed certificate on the wire: the to-be-signed bytes, then the
signature. -/
def wireSigned : Wire (Bytes × Bytes) := (Wire.list wireByte).seq (Wire.list wireByte)

/-- The public key of a private scalar (a stand-in for the scalar multiple of
the base point). -/
def publicOf (c : Curve) (d : Nat) : PublicKey := ⟨c, 2 * d + 1, 3 * d + 2⟩

/-- A signature: the public key of the scalar that signs, then the bytes
signed. -/
def sign (c : Curve) (d : Nat) (msg : Bytes) : Bytes := wirePublicKey.put (publicOf c d) ++ msg

/-- The to-be-signed part that `CreateCertificate` builds: the issuer is the
subject of the parent, the key is `pub`, times are cut down to whole seconds, the
`cA` flag is written only inside a basic constraints extension. -/
def tbsOf (tmpl parent : Certificate) (serial : Nat) (pub : PublicKey) : TBS :=
  { SerialNumber := serial,
    Issuer := parent.Subject,
    Subject := tmpl.Subject,
    NotBefore := tmpl.NotBefore / 1000000000 * 1000000000,
    NotAfter := tmpl.NotAfter / 1000000000 * 1000000000,
    PublicKey := pub,
    KeyUsage := tmpl.KeyUsage % 512,
    ExtKeyUsage := tmpl.ExtKeyUsage,
    BasicConstraintsValid := tmpl.BasicConstraintsValid,
    IsCA := tmpl.BasicConstraintsValid && tmpl.IsCA }

/-- The reference library. -/
def refLib : CryptoLib where
  GenerateKey := fun c r =>
    match r with
    | none => .err "entropy source failed"
    | some d => .ok ⟨publicOf c d, d⟩
  CheckSignature := fun pub msg sig => decide (sig = wirePublicKey.put pub ++ msg)
  CreateCertificate := fun r tmpl parent pub priv =>
    match tmpl.SerialNumber with
    | none => .err "x509: no SerialNumber given"
    | some (Int.negSucc _) => .err "x509: serial number must be positive"
    | some (Int.ofNat serial) =>
      match parent with
      | none => .panic nilDereference
      | some parent =>
        match r with
        | none => .err "entropy source failed"
        | some _ =>
          let tbs := wireTBS.put (tbsOf tmpl parent serial pub)
          let sig := sign priv.PublicKey.Curve priv.D tbs
          if sig = wirePublicKey.put priv.PublicKey ++ tbs then .ok (wireSigned.put (tbs, sig))
          else .err "x509: signature over certificate returned by signer is invalid"
  ParseCertificate := fun der =>
    match wireSigned.get der with
    | some ((tbs, sig), []) =>
      (match wireTBS.get tbs with
       | some (t, []) =>
         .ok { Raw := der, RawTBSCertificate := tbs, Signature := sig,
               PublicKey := some t.PublicKey, SerialNumber := some (Int.ofNat t.SerialNumber),
               Issuer := t.Issuer, Subject := t.Subject,
               NotBefore := t.NotBefore, NotAfter := t.NotAfter,
               KeyUsage := t.KeyUsage, ExtKeyUsage := t.ExtKeyUsage,
               BasicConstraintsValid := t.BasicConstraintsValid, IsCA := t.IsCA }
       | _ => .err "x509: malformed tbs certificate")
    | _ => .err "x509: malformed certificate"
  MarshalECPrivateKey := fun k => .ok (putNat k.D ++ wirePublicKey.put k.PublicKey)
  MarshalPKIXPublicKey := fun k => .ok (wirePublicKey.put k)

/-- A world for concrete runs: the clock advances by one nanosecond per reading
from the given start, the machine is set to UTC, every file can be written, and
`entropy` lists the reads of `rand.Reader` (after the list is used up every read
fails). -/
def sampleWorld (start : Time) (entropy : List (Option Nat)) : World :=
  { clock := fun n => start + n,
    Local := UTC,
    entropy := fun n => (entropy.getD n none),
    files := fun _ => none,
    denied := fun _ => false,
    quota := fun _ => none }

/-! ## The run as a sequence of steps -/

/-- The four construction steps of `GenerateKeys` succeed from `w`: they give the
root key, the root certificate, the leaf key and the leaf certificate, and leave
the world `w4`. -/
def Built (L : CryptoLib) (w : World) (rootPrivateKey : PrivateKey) (rootCert : Certificate)
    (leafPrivateKey : PrivateKey) (leafCert : Certificate) (w4 : World) : Prop :=
  ∃ w1 w2 w3,
    generateECDSAKey L Curve.P256 w = (Outcome.ok rootPrivateKey, w1) ∧
    createRootCertificate L rootPrivateKey w1 = (Outcome.ok rootCert, w2) ∧
    generateECDSAKey L Curve.P256 w2 = (Outcome.ok leafPrivateKey, w3) ∧
    createLeafCertificate L (some rootCert) leafPrivateKey.PublicKey rootPrivateKey w3
      = (Outcome.ok leafCert, w4)

/-- Whether `data` can be written to a new file at `path`: the path can be created
and its quota admits the data. -/
def canWrite (w : World) (path : String) (data : List Char) : Bool :=
  !w.denied path &&
  (match w.quota path with
   | none => true
   | some n => decide (data.length ≤ n))

/-- One persistence step of `GenerateKeys`: the file name, the PEM label, the DER
bytes (the outcome of marshalling), and the words of its messages: the marshal
call, the save function, and the noun of the confirmation line. -/
structure Step where
  path : String
  label : String
  der : Outcome Bytes
  marshal : String
  caller : String
  noun : String

/-- What the save function of a step does. -/
def Step.run (s : Step) (w : World) : Outcome Unit × World :=
  match s.der with
  | .err e => (.err (s.marshal ++ ": " ++ e), w)
  | .panic m => (.panic m, w)
  | .ok der => writePEM { BlockType := s.label, Bytes := der } s.path w

/-- A sequence of steps, each followed by `return` on error and by a confirmation
line otherwise. -/
def runSteps : List Step → World → Exit × World
  | [], w => (.returned, w)
  | s :: rest, w =>
    match s.run w with
    | (.panic m, w) => (.panicked m, w)
    | (.err e, w) => (.returned, printErr (s.caller ++ ": " ++ e ++ "\n") w)
    | (.ok (), w) =>
      runSteps rest (printOut (s.noun ++ " saved to " ++ quoted s.path ++ "\n") w)

/-- The six steps of a run in the order in which `GenerateKeys` takes them. -/
def plan (L : CryptoLib) (rootPrivateKey : PrivateKey) (rootCert : Certificate)
    (leafPrivateKey : PrivateKey) (leafCert : Certificate) : List Step :=
  [⟨"root_private_ecdsa.pem", "EC PRIVATE KEY", L.MarshalECPrivateKey rootPrivateKey,
      "x509.MarshalECPrivateKey", "savePrivateKeyToPEM", "ECDSA private key"⟩,
   ⟨"root_public_ecdsa.pem", "EC PUBLIC KEY", L.MarshalPKIXPublicKey rootPrivateKey.PublicKey,
      "x509.MarshalPKIXPublicKey", "savePublicKeyToPEM", "ECDSA public key"⟩,
   ⟨"root_cert_ecdsa.pem", "CERTIFICATE", Outcome.ok rootCert.Raw,
      "", "saveCertificateToFile", "ECDSA root certificate"⟩,
   ⟨"leaf_private_ecdsa.pem", "EC PRIVATE KEY", L.MarshalECPrivateKey leafPrivateKey,
      "x509.MarshalECPrivateKey", "savePrivateKeyToPEM", "ECDSA private key"⟩,
   ⟨"leaf_public_ecdsa.pem", "EC PUBLIC KEY", L.MarshalPKIXPublicKey leafPrivateKey.PublicKey,
      "x509.MarshalPKIXPublicKey", "savePublicKeyToPEM", "ECDSA public key"⟩,
   ⟨"leaf_cert_ecdsa.pem", "CERTIFICATE", Outcome.ok leafCert.Raw,
      "", "saveCertificateToFile", "ECDSA root certificate"⟩]

/-- The PEM text of a step. -/
def Step.text (s : Step) : List Char :=
  match s.der with
  | .ok der => pemEncode ⟨s.label, der⟩
  | _ => []

/-- The step succeeds in `w`: the artifact is marshalled and its text can be
written. -/
def Step.saves (s : Step) (w : World) : Bool :=
  match s.der with
  | .ok der => canWrite w s.path (pemEncode ⟨s.label, der⟩)
  | _ => false

/-- The step returns an error in `w`: marshalling fails, or the file cannot be
created, or the text cannot be written in full. -/
def Step.fails (s : Step) (w : World) : Bool :=
  match s.der with
  | .ok der => !canWrite w s.path (pemEncode ⟨s.label, der⟩)
  | .err _ => true
  | .panic _ => false

/-- The confirmation line of a step. -/
def Step.confirmation (s : Step) : String :=
  s.noun ++ " saved to " ++ quoted s.path ++ "\n"

/-- The world after `text` was written to a new file at `path`. -/
def wrote (path : String) (text : List Char) (w : World) : World :=
  { w with files := Function.update (Function.update w.files path (some [])) path (some text),
           journal := w.journal ++ [path] }

/-! ## Sample values -/
/-- The certificate of a successful outcome (the zero certificate otherwise). -/
def certOf (o : Outcome Certificate) : Certificate :=
  match o with
  | .ok c => c
  | _ => {}

/-- The root key of the sample runs. -/
def sampleRootKey : PrivateKey := ⟨publicOf Curve.P256 5, 5⟩

/-- The leaf key of the sample runs. -/
def sampleLeafKey : PrivateKey := ⟨publicOf Curve.P256 7, 7⟩

/-- The root certificate of the sample runs. -/
def sampleRootCert : Certificate :=
  certOf (createRootCertificate refLib sampleRootKey (sampleWorld 0 [some 6])).1

/-- The leaf certificate of the sample runs. -/
def sampleLeafCert : Certificate :=
  certOf (createLeafCertificate refLib (some sampleRootCert) sampleLeafKey.PublicKey sampleRootKey
    (sampleWorld 2 [some 8])).1

/-- The world of the sample run: every key generation and every signature finds
entropy. -/
def sampleRun : World := sampleWorld 0 [some 5, some 6, some 7, some 8]

/-- The world of the sample run after the four construction steps. -/
def sampleBuilt : World := { sampleRun with ticks := 4, draws := 4 }

/-- The world of the sample run in which the root certificate cannot be
created on disk. -/
def sampleDenied : World :=
  { sampleRun with denied := fun p => decide (p = "root_cert_ecdsa.pem") }

/-- The world of the sample run in which the signature of the leaf certificate
finds no entropy. -/
def sampleLeafFails : World := sampleWorld 0 [some 5, some 6, some 7, none]

/-- The world of the sample run in which the signature of the root certificate
finds no entropy. -/
def sampleRootFails : World := sampleWorld 0 [some 5, none, some 7, some 8]

/-- A certificate authority with another name than the one written in the
templates. -/
def otherParent : Certificate :=
  { Subject := { CommonName := "Another Authority", Organization := ["Another Organisation"],
                 Country := ["Country"] } }

/-- The block of the sample root certificate. -/
def sampleBlock : Block := ⟨"CERTIFICATE", sampleRootCert.Raw⟩

theorem byteOf_val (n : Nat) : (byteOf n).val = n % 256 := rfl

theorem byteOf_fin (b : Byte) : byteOf b.val = b := by
  apply Fin.ext
  simp [byteOf, Nat.mod_eq_of_lt b.isLt]

theorem getNat_putNatAux (fuel : Nat) : ∀ (n : Nat) (rest : Bytes), n ≤ fuel →
    getNat (putNatAux fuel n ++ rest) = some (n, rest) := by
  induction fuel with
  | zero =>
    intro n rest h
    have h0 : n = 0 := by omega
    subst h0
    simp [putNatAux, getNat, byteOf]
  | succ fuel ih =>
    intro n rest h
    by_cases hn : n < 128
    · have h1 : n % 256 = n := Nat.mod_eq_of_lt (by omega)
      simp [putNatAux, hn, getNat, byteOf, h1]
    · have h1 : (n % 128 + 128) % 256 = n % 128 + 128 := Nat.mod_eq_of_lt (by omega)
      have h2 : ¬ (n % 128 + 128 < 128) := by omega
      have h3 : n / 128 ≤ fuel := by omega
      simp only [putNatAux, hn, if_false, List.cons_append, getNat, byteOf, h1, h2, ih _ rest h3]
      congr 2
      omega

theorem wireNat_exact : wireNat.Exact := by
  intro n rest
  exact getNat_putNatAux n n rest (le_refl n)

theorem Wire.via_exact {α β : Type} {c : Wire α} (hc : c.Exact) (f : β → α) (g : α → β)
    (hfg : ∀ b, g (f b) = b) : (c.via f g).Exact := by
  intro b rest
  simp [Wire.via, hc (f b) rest, hfg]

theorem Wire.seq_exact {α β : Type} {c : Wire α} {d : Wire β} (hc : c.Exact) (hd : d.Exact) :
    (c.seq d).Exact := by
  intro p rest
  simp [Wire.seq, List.append_assoc, hc p.1 _, hd p.2 rest]

theorem getMany_putMany {α : Type} {c : Wire α} (hc : c.Exact) :
    ∀ (l : List α) (rest : Bytes), getMany c l.length (putMany c l ++ rest) = some (l, rest) := by
  intro l
  induction l with
  | nil => intro rest; simp [getMany, putMany]
  | cons a l ih =>
    intro rest
    simp [getMany, putMany, List.append_assoc, hc a _, ih rest]

theorem Wire.list_exact {α : Type} {c : Wire α} (hc : c.Exact) : (Wire.list c).Exact := by
  intro l rest
  have h := wireNat_exact l.length (putMany c l ++ rest)
  simp only [wireNat] at h
  simp [Wire.list, List.append_assoc, h, getMany_putMany hc l rest]

theorem wireByte_exact : wireByte.Exact :=
  Wire.via_exact wireNat_exact _ _ byteOf_fin

theorem wireBool_exact : wireBool.Exact :=
  Wire.via_exact wireNat_exact _ _ (by intro b; cases b <;> simp)

theorem wireInt_exact : wireInt.Exact :=
  Wire.via_exact (Wire.seq_exact wireBool_exact wireNat_exact) _ _
    (by
      intro i
      by_cases h : i < 0
      · simp only [h, decide_True, if_true]
        omega
      · simp only [h, decide_False]
        simp only [Bool.false_eq_true, if_false]
        omega)

theorem wireString_exact : wireString.Exact :=
  Wire.via_exact (Wire.list_exact (Wire.via_exact wireNat_exact _ _ (by intro c; simp))) _ _
    (by intro s; rfl)

theorem wireName_exact : wireName.Exact :=
  Wire.via_exact
    (Wire.seq_exact wireString_exact
      (Wire.seq_exact (Wire.list_exact wireString_exact) (Wire.list_exact wireString_exact)))
    _ _ (by intro n; rfl)

theorem wirePublicKey_exact : wirePublicKey.Exact :=
  Wire.via_exact (Wire.seq_exact wireNat_exact (Wire.seq_exact wireNat_exact wireNat_exact))
    _ _ (by intro k; rcases k with ⟨c, x, y⟩; cases c <;> rfl)

theorem wireTBS_exact : wireTBS.Exact :=
  Wire.via_exact
    (Wire.seq_exact wireNat_exact (Wire.seq_exact wireName_exact (Wire.seq_exact wireName_exact
      (Wire.seq_exact wireInt_exact (Wire.seq_exact wireInt_exact
        (Wire.seq_exact wirePublicKey_exact (Wire.seq_exact wireNat_exact
          (Wire.seq_exact
            (Wire.list_exact (Wire.via_exact wireNat_exact ekuCode ekuOfCode
              (by intro e; cases e <;> rfl)))
            (Wire.seq_exact wireBool_exact wireBool_exact)))))))))
    _ _ (by intro t; rfl)

theorem wireSigned_exact : wireSigned.Exact :=
  Wire.seq_exact (Wire.list_exact wireByte_exact) (Wire.list_exact wireByte_exact)

/-- Parsing what the reference `CreateCertificate` assembled. -/
theorem refLib_parse_signed (t : TBS) (sig : Bytes) :
    refLib.ParseCertificate (wireSigned.put (wireTBS.put t, sig)) =
      Outcome.ok
        { Raw := wireSigned.put (wireTBS.put t, sig), RawTBSCertificate := wireTBS.put t,
          Signature := sig, PublicKey := some t.PublicKey,
          SerialNumber := some (Int.ofNat t.SerialNumber),
          Issuer := t.Issuer, Subject := t.Subject,
          NotBefore := t.NotBefore, NotAfter := t.NotAfter,
          KeyUsage := t.KeyUsage, ExtKeyUsage := t.ExtKeyUsage,
          BasicConstraintsValid := t.BasicConstraintsValid, IsCA := t.IsCA } := by
  have h1 := wireSigned_exact (wireTBS.put t, sig) []
  have h2 := wireTBS_exact t []
  rw [List.append_nil] at h1 h2
  simp only [refLib, h1, h2]

theorem refLib_lawful : refLib.Lawful := by
  constructor
  intro r tmpl parent pub priv der cert hcreate hparse
  simp only [refLib] at hcreate
  split at hcreate
  · cases hcreate
  · cases hcreate
  · rename_i serial hs
    cases r with
    | none => simp at hcreate
    | some r =>
      simp only at hcreate
      split at hcreate
      · rename_i hsig
        injection hcreate with hder
        subst hder
        rw [refLib_parse_signed] at hparse
        injection hparse with hcert
        subst hcert
        refine ⟨rfl, rfl, rfl, rfl, rfl, rfl, rfl, ?_⟩
        simpa [refLib] using hsig
      · cases hcreate

/-- Inversion of `createRootCertificate`: a returned certificate is the parse of
the DER that `CreateCertificate` made from the root template, with that template
as parent, the public half of `key` as certified key and `key` as signer. -/
theorem createRootCertificate_ok {L : CryptoLib} {key : PrivateKey} {w : World}
    {cert : Certificate} (h : (createRootCertificate L key w).1 = Outcome.ok cert) :
    ∃ der,
      L.CreateCertificate (w.entropy w.draws)
        (rootTemplate w.Local (w.clock w.ticks) (w.clock (w.ticks + 1)))
        (some (rootTemplate w.Local (w.clock w.ticks) (w.clock (w.ticks + 1))))
        key.PublicKey key = Outcome.ok der ∧
      L.ParseCertificate der = Outcome.ok cert := by
  simp only [createRootCertificate, timeNow, randRead] at h
  split at h
  · cases h
  · cases h
  · rename_i der hder
    split at h
    · cases h
    · cases h
    · rename_i c hc
      injection h with h
      subst h
      exact ⟨der, hder, hc⟩

/-- Inversion of `createLeafCertificate`. -/
theorem createLeafCertificate_ok {L : CryptoLib} {parentCert : Option Certificate}
    {leafPub : PublicKey} {signerKey : PrivateKey} {w : World}
    {cert : Certificate}
    (h : (createLeafCertificate L parentCert leafPub signerKey w).1 = Outcome.ok cert) :
    ∃ der,
      L.CreateCertificate (w.entropy w.draws)
        (leafTemplate w.Local (w.clock w.ticks) (w.clock (w.ticks + 1)))
        parentCert leafPub signerKey = Outcome.ok der ∧
      L.ParseCertificate der = Outcome.ok cert := by
  simp only [createLeafCertificate, timeNow, randRead] at h
  split at h
  · cases h
  · cases h
  · rename_i der hder
    split at h
    · cases h
    · cases h
    · rename_i c hc
      injection h with h
      subst h
      exact ⟨der, hder, hc⟩

/-- C5: a certificate returned by `createRootCertificate kp` is self-signed: the
template has equal subject and issuer names, the DER was made by
`CreateCertificate` with that one template as certificate and as parent, with the
public half of `kp` as certified key and `kp` as signing key; so the certificate
has subject equal to issuer, certifies the public half of `kp`, and its signature
verifies under that key. -/
theorem createRootCertificate_self_signed (L : CryptoLib) (hL : L.Lawful) (kp : PrivateKey)
    (w : World) (cert : Certificate)
    (h : (createRootCertificate L kp w).1 = Outcome.ok cert) :
    (rootTemplate w.Local (w.clock w.ticks) (w.clock (w.ticks + 1))).Subject =
      (rootTemplate w.Local (w.clock w.ticks) (w.clock (w.ticks + 1))).Issuer ∧
    (∃ der, L.CreateCertificate (w.entropy w.draws)
        (rootTemplate w.Local (w.clock w.ticks) (w.clock (w.ticks + 1)))
        (some (rootTemplate w.Local (w.clock w.ticks) (w.clock (w.ticks + 1))))
        kp.PublicKey kp = Outcome.ok der ∧ L.ParseCertificate der = Outcome.ok cert) ∧
    cert.Subject = cert.Issuer ∧
    cert.PublicKey = some kp.PublicKey ∧
    L.CheckSignature kp.PublicKey cert.RawTBSCertificate cert.Signature = true ∧
    signedBy L cert cert = true := by
  obtain ⟨der, hder, hparse⟩ := createRootCertificate_ok h
  obtain ⟨-, hsub, hiss, hpub, -, -, -, hsig⟩ := hL.create_parse _ _ _ _ _ _ _ hder hparse
  refine ⟨rfl, ⟨der, hder, hparse⟩, ?_, hpub, hsig, ?_⟩
  · rw [hsub, hiss]
  · simp [signedBy, hpub, hsig]

set_option maxRecDepth 100000 in
/-- Witness of C5: the root certificate of the sample run. -/
theorem createRootCertificate_self_signed_witness :
    (createRootCertificate refLib sampleRootKey (sampleWorld 0 [some 6])).1
        = Outcome.ok sampleRootCert ∧
    sampleRootCert.Subject = sampleRootCert.Issuer ∧
    sampleRootCert.PublicKey = some sampleRootKey.PublicKey ∧
    signedBy refLib sampleRootCert sampleRootCert = true :=
  have h := createRootCertificate_self_signed refLib refLib_lawful sampleRootKey
    (sampleWorld 0 [some 6]) sampleRootCert (by decide)
  ⟨by decide, h.2.2.1, h.2.2.2.1, h.2.2.2.2.2⟩

/-- C4: a certificate returned by `createLeafCertificate root leafPub rootPriv` has
the subject of `root` as issuer, certifies `leafPub`, and carries a signature
that verifies under the public key of `rootPriv`; the certified key and the
signing key reach `CreateCertificate` as two separate arguments. -/
theorem createLeafCertificate_issuer_key_signer (L : CryptoLib) (hL : L.Lawful)
    (root : Certificate) (leafPub : PublicKey) (rootPriv : PrivateKey) (w : World)
    (cert : Certificate)
    (h : (createLeafCertificate L (some root) leafPub rootPriv w).1 = Outcome.ok cert) :
    cert.Issuer = root.Subject ∧
    cert.PublicKey = some leafPub ∧
    L.CheckSignature rootPriv.PublicKey cert.RawTBSCertificate cert.Signature = true ∧
    (∃ der, L.CreateCertificate (w.entropy w.draws)
        (leafTemplate w.Local (w.clock w.ticks) (w.clock (w.ticks + 1)))
        (some root) leafPub rootPriv = Outcome.ok der ∧
      L.ParseCertificate der = Outcome.ok cert) := by
  obtain ⟨der, hder, hparse⟩ := createLeafCertificate_ok h
  obtain ⟨-, -, hiss, hpub, -, -, -, hsig⟩ := hL.create_parse _ _ _ _ _ _ _ hder hparse
  exact ⟨hiss, hpub, hsig, der, hder, hparse⟩

set_option maxRecDepth 100000 in
/-- Witness of C4: the leaf certificate of the sample run; its key is not the key of
the signer. -/
theorem createLeafCertificate_issuer_key_signer_witness :
    (createLeafCertificate refLib (some sampleRootCert) sampleLeafKey.PublicKey sampleRootKey
        (sampleWorld 2 [some 8])).1 = Outcome.ok sampleLeafCert ∧
    sampleLeafCert.Issuer = sampleRootCert.Subject ∧
    sampleLeafCert.PublicKey = some sampleLeafKey.PublicKey ∧
    sampleLeafCert.PublicKey ≠ some sampleRootKey.PublicKey ∧
    refLib.CheckSignature sampleRootKey.PublicKey sampleLeafCert.RawTBSCertificate
      sampleLeafCert.Signature = true :=
  have h := createLeafCertificate_issuer_key_signer refLib refLib_lawful sampleRootCert
    sampleLeafKey.PublicKey sampleRootKey (sampleWorld 2 [some 8]) sampleLeafCert (by decide)
  ⟨by decide, h.1, h.2.1, by decide, h.2.2.1⟩

/-! ## Calendar arithmetic -/

theorem savePrivateKeyToPEM_eq (L : CryptoLib) (k : PrivateKey) (p : String) (n : String) (w : World) :
    savePrivateKeyToPEM L k p w =
      Step.run ⟨p, "EC PRIVATE KEY", L.MarshalECPrivateKey k, "x509.MarshalECPrivateKey",
        "savePrivateKeyToPEM", n⟩ w := by
  simp only [savePrivateKeyToPEM, Step.run]
  cases L.MarshalECPrivateKey k <;> rfl

theorem savePublicKeyToPEM_eq (L : CryptoLib) (k : PublicKey) (p : String) (n : String) (w : World) :
    savePublicKeyToPEM L k p w =
      Step.run ⟨p, "EC PUBLIC KEY", L.MarshalPKIXPublicKey k, "x509.MarshalPKIXPublicKey",
        "savePublicKeyToPEM", n⟩ w := by
  simp only [savePublicKeyToPEM, Step.run]
  cases L.MarshalPKIXPublicKey k <;> rfl

theorem saveCertificateToFile_eq (c : Certificate) (p : String) (n : String) (w : World) :
    saveCertificateToFile (some c) p w =
      Step.run ⟨p, "CERTIFICATE", Outcome.ok c.Raw, "", "saveCertificateToFile", n⟩ w := by
  rfl

/-- The persistence half of `GenerateKeys` is the run of the six steps of the plan. -/
theorem saveAll_eq_runSteps (L : CryptoLib) (rootPrivateKey : PrivateKey) (rootCert : Certificate)
    (leafPrivateKey : PrivateKey) (leafCert : Certificate) (w : World) :
    saveAll L rootPrivateKey (some rootCert) leafPrivateKey (some leafCert) w =
      runSteps (plan L rootPrivateKey rootCert leafPrivateKey leafCert) w := by
  simp only [saveAll, plan, runSteps,
    savePrivateKeyToPEM_eq L _ _ "ECDSA private key",
    savePublicKeyToPEM_eq L _ _ "ECDSA public key",
    saveCertificateToFile_eq _ _ "ECDSA root certificate"]
  rfl


theorem writePEM_ok (b : Block) (path : String) (w : World)
    (h : canWrite w path (pemEncode b) = true) :
    writePEM b path w = (Outcome.ok (), wrote path (pemEncode b) w) := by
  simp only [canWrite, Bool.and_eq_true, Bool.not_eq_true'] at h
  obtain ⟨hd, hq⟩ := h
  cases hquota : w.quota path with
  | none => simp [writePEM, osCreate, hd, fileWrite, hquota, wrote]
  | some n =>
    rw [hquota] at hq
    simp only [decide_eq_true_eq] at hq
    simp [writePEM, osCreate, hd, fileWrite, hquota, hq, wrote]

theorem writePEM_fail (b : Block) (path : String) (w : World)
    (h : canWrite w path (pemEncode b) = false) :
    ∃ e, (writePEM b path w).1 = Outcome.err e := by
  simp only [canWrite, Bool.and_eq_false_iff, Bool.not_eq_false'] at h
  cases hd : w.denied path with
  | true =>
    exact ⟨"os.Create: " ++ ("open " ++ path ++ ": permission denied"),
      by simp [writePEM, osCreate, hd]⟩
  | false =>
    rw [hd] at h
    rcases h with h | h
    · cases h
    · cases hquota : w.quota path with
      | none => rw [hquota] at h; cases h
      | some n =>
        rw [hquota] at h
        simp only [decide_eq_false_iff_not] at h
        exact ⟨"pem.Encode: " ++ ("write " ++ path ++ ": no space left on device"),
          by simp [writePEM, osCreate, hd, fileWrite, hquota, h]⟩

/-- What `writePEM` leaves alone, whatever its outcome. -/
theorem writePEM_frame (b : Block) (path : String) (w : World) :
    (writePEM b path w).2.stdout = w.stdout ∧ (writePEM b path w).2.stderr = w.stderr ∧
    (writePEM b path w).2.denied = w.denied ∧ (writePEM b path w).2.quota = w.quota ∧
    (∀ p, p ≠ path → (writePEM b path w).2.files p = w.files p) ∧
    ((writePEM b path w).2.journal = w.journal ∨
      (writePEM b path w).2.journal = w.journal ++ [path]) := by
  cases hd : w.denied path with
  | true => simp [writePEM, osCreate, hd]
  | false =>
    have hfiles : ∀ (t : List Char) (p : String), p ≠ path →
        Function.update (Function.update w.files path (some [])) path (some t) p = w.files p := by
      intro t p hp
      simp [Function.update, hp]
    cases hquota : w.quota path with
    | none =>
      have key : writePEM b path w = (Outcome.ok (), wrote path (pemEncode b) w) := by
        simp [writePEM, osCreate, hd, fileWrite, hquota, wrote]
      rw [key]
      exact ⟨rfl, rfl, rfl, rfl, hfiles _, Or.inr rfl⟩
    | some n =>
      by_cases hn : (pemEncode b).length ≤ n
      · have key : writePEM b path w = (Outcome.ok (), wrote path (pemEncode b) w) := by
          simp [writePEM, osCreate, hd, fileWrite, hquota, hn, wrote]
        rw [key]
        exact ⟨rfl, rfl, rfl, rfl, hfiles _, Or.inr rfl⟩
      · have key : writePEM b path w =
            (Outcome.err ("pem.Encode: " ++ ("write " ++ path ++ ": no space left on device")),
              wrote path ((pemEncode b).take n) w) := by
          simp [writePEM, osCreate, hd, fileWrite, hquota, hn, wrote]
        rw [key]
        exact ⟨rfl, rfl, rfl, rfl, hfiles _, Or.inr rfl⟩

theorem Step.run_ok (s : Step) (w : World) (h : s.saves w = true) :
    s.run w = (Outcome.ok (), wrote s.path s.text w) := by
  unfold Step.saves at h
  unfold Step.run Step.text
  cases hder : s.der with
  | ok der => rw [hder] at h; exact writePEM_ok _ _ _ h
  | err e => rw [hder] at h; cases h
  | panic m => rw [hder] at h; cases h

theorem Step.run_fail (s : Step) (w : World) (h : s.fails w = true) :
    ∃ e, (s.run w).1 = Outcome.err e := by
  unfold Step.fails at h
  unfold Step.run
  cases hder : s.der with
  | ok der =>
    rw [hder] at h
    simp only [Bool.not_eq_true'] at h
    exact writePEM_fail _ _ _ h
  | err e => exact ⟨_, rfl⟩
  | panic m => rw [hder] at h; cases h

theorem Step.run_frame (s : Step) (w : World) :
    (s.run w).2.stdout = w.stdout ∧ (s.run w).2.stderr = w.stderr ∧
    (s.run w).2.denied = w.denied ∧ (s.run w).2.quota = w.quota ∧
    (∀ p, p ≠ s.path → (s.run w).2.files p = w.files p) ∧
    ((s.run w).2.journal = w.journal ∨ (s.run w).2.journal = w.journal ++ [s.path]) := by
  unfold Step.run
  cases s.der with
  | ok der => exact writePEM_frame _ _ _
  | err e => exact ⟨rfl, rfl, rfl, rfl, fun _ _ => rfl, Or.inl rfl⟩
  | panic m => exact ⟨rfl, rfl, rfl, rfl, fun _ _ => rfl, Or.inl rfl⟩

theorem Step.saves_congr (s : Step) (w w1 : World) (hd : w1.denied = w.denied)
    (hq : w1.quota = w.quota) : s.saves w1 = s.saves w := by
  simp [Step.saves, canWrite, hd, hq]

theorem Step.fails_congr (s : Step) (w w1 : World) (hd : w1.denied = w.denied)
    (hq : w1.quota = w.quota) : s.fails w1 = s.fails w := by
  simp [Step.fails, canWrite, hd, hq]

theorem runSteps_cons_ok (a : Step) (S : List Step) (w : World) (h : a.saves w = true) :
    runSteps (a :: S) w =
      runSteps S (printOut (a.noun ++ " saved to " ++ quoted a.path ++ "\n")
        (wrote a.path a.text w)) := by
  simp only [runSteps, a.run_ok w h]

/-- A run of steps in which a prefix succeeds and the next step fails: it returns,
one line is added to standard error, the steps of the prefix are confirmed and
their files hold their texts, no other file than those of the prefix and of the
failing step changes, and no file after the failing step is created. -/
theorem runSteps_stops (pre : List Step) : ∀ (s : Step) (post : List Step) (w : World),
    (∀ a ∈ pre, a.saves w = true) → s.fails w = true →
    ((pre ++ [s]).map Step.path).Nodup →
    (runSteps (pre ++ s :: post) w).1 = Exit.returned ∧
    (∃ e, (runSteps (pre ++ s :: post) w).2.stderr = w.stderr ++ [s.caller ++ ": " ++ e ++ "\n"]) ∧
    (runSteps (pre ++ s :: post) w).2.stdout = w.stdout ++ pre.map Step.confirmation ∧
    (∀ a ∈ pre, (runSteps (pre ++ s :: post) w).2.files a.path = some a.text) ∧
    (∀ p, p ∉ (pre ++ [s]).map Step.path → (runSteps (pre ++ s :: post) w).2.files p = w.files p) ∧
    ((runSteps (pre ++ s :: post) w).2.journal = w.journal ++ pre.map Step.path ∨
     (runSteps (pre ++ s :: post) w).2.journal = w.journal ++ (pre ++ [s]).map Step.path) := by
  induction pre with
  | nil =>
    intro s post w _ hfail _
    obtain ⟨e, he⟩ := s.run_fail w hfail
    obtain ⟨f1, f2, -, -, f5, f6⟩ := s.run_frame w
    have hrun : s.run w = (Outcome.err e, (s.run w).2) := by rw [← he]
    simp only [List.nil_append, runSteps]
    rw [hrun]
    refine ⟨rfl, ⟨e, ?_⟩, ?_, ?_, ?_, ?_⟩
    · simp [printErr, f2]
    · simp [printErr, f1]
    · intro a ha; cases ha
    · intro p hp
      simp only [List.map_cons, List.map_nil, List.mem_singleton] at hp
      simpa [printErr] using f5 p hp
    · rcases f6 with h | h
      · left; simp [printErr, h]
      · right; simp [printErr, h]
  | cons a pre ih =>
    intro s post w hok hfail hnodup
    have ha : a.saves w = true := hok a (List.mem_cons_self _ _)
    simp only [List.cons_append, List.map_cons, List.nodup_cons] at hnodup
    obtain ⟨hnot, hnodup⟩ := hnodup
    have hw1d : (printOut (a.noun ++ " saved to " ++ quoted a.path ++ "\n")
        (wrote a.path a.text w)).denied = w.denied := rfl
    have hw1q : (printOut (a.noun ++ " saved to " ++ quoted a.path ++ "\n")
        (wrote a.path a.text w)).quota = w.quota := rfl
    obtain ⟨i1, ⟨e, i2⟩, i3, i4, i5, i6⟩ := ih s post
      (printOut (a.noun ++ " saved to " ++ quoted a.path ++ "\n") (wrote a.path a.text w))
      (fun b hb => by rw [Step.saves_congr b w _ hw1d hw1q]; exact hok b (List.mem_cons_of_mem _ hb))
      (by rw [Step.fails_congr s w _ hw1d hw1q]; exact hfail) hnodup
    rw [List.cons_append, runSteps_cons_ok _ _ _ ha]
    refine ⟨i1, ⟨e, i2⟩, ?_, ?_, ?_, ?_⟩
    · rw [i3]; simp [printOut, wrote, Step.confirmation]
    · intro b hb
      rcases List.mem_cons.mp hb with hb | hb
      · subst hb
        rw [i5 _ hnot]
        simp [printOut, wrote]
      · exact i4 b hb
    · intro p hp
      simp only [List.cons_append, List.map_cons, List.mem_cons, not_or] at hp
      rw [i5 p hp.2]
      simp [printOut, wrote, Function.update, hp.1]
    · rcases i6 with h | h
      · left; rw [h]; simp [printOut, wrote]
      · right; rw [h]; simp [printOut, wrote]

/-- A run of steps that all succeed: it returns, nothing is written to standard
error, every step is confirmed, the files are created once each in the order of
the steps and hold the texts of their steps, and no other file changes. -/
theorem runSteps_all (S : List Step) : ∀ (w : World),
    (∀ a ∈ S, a.saves w = true) → (S.map Step.path).Nodup →
    (runSteps S w).1 = Exit.returned ∧
    (runSteps S w).2.stderr = w.stderr ∧
    (runSteps S w).2.stdout = w.stdout ++ S.map Step.confirmation ∧
    (runSteps S w).2.journal = w.journal ++ S.map Step.path ∧
    (∀ a ∈ S, (runSteps S w).2.files a.path = some a.text) ∧
    (∀ p, p ∉ S.map Step.path → (runSteps S w).2.files p = w.files p) := by
  induction S with
  | nil => intro w _ _; simp [runSteps]
  | cons a S ih =>
    intro w hok hnodup
    have ha : a.saves w = true := hok a (List.mem_cons_self _ _)
    simp only [List.map_cons, List.nodup_cons] at hnodup
    obtain ⟨hnot, hnodup⟩ := hnodup
    have hw1d : (printOut (a.noun ++ " saved to " ++ quoted a.path ++ "\n")
        (wrote a.path a.text w)).denied = w.denied := rfl
    have hw1q : (printOut (a.noun ++ " saved to " ++ quoted a.path ++ "\n")
        (wrote a.path a.text w)).quota = w.quota := rfl
    obtain ⟨i1, i2, i3, i4, i5, i6⟩ := ih
      (printOut (a.noun ++ " saved to " ++ quoted a.path ++ "\n") (wrote a.path a.text w))
      (fun b hb => by rw [Step.saves_congr b w _ hw1d hw1q]; exact hok b (List.mem_cons_of_mem _ hb))
      hnodup
    rw [runSteps_cons_ok _ _ _ ha]
    refine ⟨i1, ?_, ?_, ?_, ?_, ?_⟩
    · rw [i2]; rfl
    · rw [i3]; simp [printOut, wrote, Step.confirmation]
    · rw [i4]; simp [printOut, wrote]
    · intro b hb
      rcases List.mem_cons.mp hb with hb | hb
      · subst hb
        rw [i6 _ hnot]
        simp [printOut, wrote]
      · exact i5 b hb
    · intro p hp
      simp only [List.map_cons, List.mem_cons, not_or] at hp
      rw [i6 p hp.2]
      simp [printOut, wrote, Function.update, hp.1]

/-! ## The run of GenerateKeys -/

theorem generateECDSAKey_world (L : CryptoLib) (c : Curve) (w : World) :
    (generateECDSAKey L c w).2 = { w with draws := w.draws + 1 } := by
  simp only [generateECDSAKey, randRead]
  cases L.GenerateKey c (w.entropy w.draws) <;> rfl

theorem createRootCertificate_world (L : CryptoLib) (key : PrivateKey) (w : World) :
    (createRootCertificate L key w).2 = { w with ticks := w.ticks + 1 + 1, draws := w.draws + 1 } := by
  simp only [createRootCertificate, timeNow, randRead]
  split
  · rfl
  · rfl
  · split <;> rfl

theorem createLeafCertificate_world (L : CryptoLib) (parent : Option Certificate)
    (pub : PublicKey) (key : PrivateKey) (w : World) :
    (createLeafCertificate L parent pub key w).2 =
      { w with ticks := w.ticks + 1 + 1, draws := w.draws + 1 } := by
  simp only [createLeafCertificate, timeNow, randRead]
  split
  · rfl
  · rfl
  · split <;> rfl

/-- The construction steps read the clock and the entropy source and touch nothing
else. -/
theorem Built.world {L : CryptoLib} {w w4 : World} {rootPrivateKey leafPrivateKey : PrivateKey}
    {rootCert leafCert : Certificate}
    (h : Built L w rootPrivateKey rootCert leafPrivateKey leafCert w4) :
    w4 = { w with ticks := w.ticks + 4, draws := w.draws + 4 } := by
  obtain ⟨w1, w2, w3, h1, h2, h3, h4⟩ := h
  have e1 := generateECDSAKey_world L Curve.P256 w
  have e2 := createRootCertificate_world L rootPrivateKey w1
  have e3 := generateECDSAKey_world L Curve.P256 w2
  have e4 := createLeafCertificate_world L (some rootCert) leafPrivateKey.PublicKey
    rootPrivateKey w3
  rw [h1] at e1
  rw [h2] at e2
  rw [h3] at e3
  rw [h4] at e4
  simp only at e1 e2 e3 e4
  subst e1
  subst e2
  subst e3
  subst e4
  rfl

/-- After the construction steps a run is the run of the six persistence steps. -/
theorem Built.run {L : CryptoLib} {w w4 : World} {rootPrivateKey leafPrivateKey : PrivateKey}
    {rootCert leafCert : Certificate}
    (h : Built L w rootPrivateKey rootCert leafPrivateKey leafCert w4) :
    GenerateKeys L w = runSteps (plan L rootPrivateKey rootCert leafPrivateKey leafCert) w4 := by
  obtain ⟨w1, w2, w3, h1, h2, h3, h4⟩ := h
  rw [← saveAll_eq_runSteps]
  simp only [GenerateKeys, h1, h2, h3, h4]

theorem plan_paths (L : CryptoLib) (rootPrivateKey : PrivateKey) (rootCert : Certificate)
    (leafPrivateKey : PrivateKey) (leafCert : Certificate) :
    (plan L rootPrivateKey rootCert leafPrivateKey leafCert).map Step.path =
      ["root_private_ecdsa.pem", "root_public_ecdsa.pem", "root_cert_ecdsa.pem",
       "leaf_private_ecdsa.pem", "leaf_public_ecdsa.pem", "leaf_cert_ecdsa.pem"] := rfl

theorem plan_nodup (L : CryptoLib) (rootPrivateKey : PrivateKey) (rootCert : Certificate)
    (leafPrivateKey : PrivateKey) (leafCert : Certificate) :
    ((plan L rootPrivateKey rootCert leafPrivateKey leafCert).map Step.path).Nodup := by
  rw [plan_paths]
  decide

set_option maxRecDepth 100000 in
theorem sample_built :
    Built refLib sampleRun sampleRootKey sampleRootCert sampleLeafKey sampleLeafCert
      sampleBuilt :=
  ⟨{ sampleRun with draws := 1 }, { sampleRun with ticks := 2, draws := 2 },
   { sampleRun with ticks := 2, draws := 3 }, rfl, rfl, rfl, rfl⟩

/-- C7: in a run of `GenerateKeys` in which every step succeeds, exactly six files
are created, each once, in this order: `root_private_ecdsa.pem`,
`root_public_ecdsa.pem`, `root_cert_ecdsa.pem`, `leaf_private_ecdsa.pem`,
`leaf_public_ecdsa.pem`, `leaf_cert_ecdsa.pem`; each holds the PEM text of the
artifact its name states (the marshalled root private key, root public key, the
raw root certificate, and the same for the leaf), no other file changes, nothing
is written to standard error and six confirmation lines are printed. -/
theorem GenerateKeys_six_files (L : CryptoLib) (w w4 : World)
    (rootPrivateKey leafPrivateKey : PrivateKey) (rootCert leafCert : Certificate)
    (hb : Built L w rootPrivateKey rootCert leafPrivateKey leafCert w4)
    (d1 d2 d3 d4 : Bytes)
    (h1 : L.MarshalECPrivateKey rootPrivateKey = Outcome.ok d1)
    (h2 : L.MarshalPKIXPublicKey rootPrivateKey.PublicKey = Outcome.ok d2)
    (h3 : L.MarshalECPrivateKey leafPrivateKey = Outcome.ok d3)
    (h4 : L.MarshalPKIXPublicKey leafPrivateKey.PublicKey = Outcome.ok d4)
    (hs : ∀ s ∈ plan L rootPrivateKey rootCert leafPrivateKey leafCert, s.saves w = true) :
    (GenerateKeys L w).1 = Exit.returned ∧
    (GenerateKeys L w).2.stderr = w.stderr ∧
    (GenerateKeys L w).2.journal = w.journal ++
      ["root_private_ecdsa.pem", "root_public_ecdsa.pem", "root_cert_ecdsa.pem",
       "leaf_private_ecdsa.pem", "leaf_public_ecdsa.pem", "leaf_cert_ecdsa.pem"] ∧
    (GenerateKeys L w).2.files "root_private_ecdsa.pem"
      = some (pemEncode ⟨"EC PRIVATE KEY", d1⟩) ∧
    (GenerateKeys L w).2.files "root_public_ecdsa.pem"
      = some (pemEncode ⟨"EC PUBLIC KEY", d2⟩) ∧
    (GenerateKeys L w).2.files "root_cert_ecdsa.pem"
      = some (pemEncode ⟨"CERTIFICATE", rootCert.Raw⟩) ∧
    (GenerateKeys L w).2.files "leaf_private_ecdsa.pem"
      = some (pemEncode ⟨"EC PRIVATE KEY", d3⟩) ∧
    (GenerateKeys L w).2.files "leaf_public_ecdsa.pem"
      = some (pemEncode ⟨"EC PUBLIC KEY", d4⟩) ∧
    (GenerateKeys L w).2.files "leaf_cert_ecdsa.pem"
      = some (pemEncode ⟨"CERTIFICATE", leafCert.Raw⟩) ∧
    (∀ p, p ∉ ["root_private_ecdsa.pem", "root_public_ecdsa.pem", "root_cert_ecdsa.pem",
       "leaf_private_ecdsa.pem", "leaf_public_ecdsa.pem", "leaf_cert_ecdsa.pem"] →
      (GenerateKeys L w).2.files p = w.files p) ∧
    (GenerateKeys L w).2.stdout = w.stdout ++
      ["ECDSA private key saved to \"root_private_ecdsa.pem\"\n",
       "ECDSA public key saved to \"root_public_ecdsa.pem\"\n",
       "ECDSA root certificate saved to \"root_cert_ecdsa.pem\"\n",
       "ECDSA private key saved to \"leaf_private_ecdsa.pem\"\n",
       "ECDSA public key saved to \"leaf_public_ecdsa.pem\"\n",
       "ECDSA root certificate saved to \"leaf_cert_ecdsa.pem\"\n"] := by
  have hw4 := hb.world
  have hs4 : ∀ s ∈ plan L rootPrivateKey rootCert leafPrivateKey leafCert, s.saves w4 = true := by
    intro s hmem
    rw [Step.saves_congr s w w4 (by rw [hw4]) (by rw [hw4])]
    exact hs s hmem
  obtain ⟨r1, r2, r3, r4, r5, r6⟩ := runSteps_all _ w4 hs4 (plan_nodup _ _ _ _ _)
  rw [hb.run]
  rw [plan_paths] at r4 r6
  refine ⟨r1, ?_, ?_, ?_, ?_, ?_, ?_, ?_, ?_, ?_, ?_⟩
  · rw [r2, hw4]
  · rw [r4, hw4]
  · have := r5 _ (List.mem_cons_self _ _)
    simpa [Step.text, h1] using this
  · have := r5 _ (List.mem_cons_of_mem _ (List.mem_cons_self _ _))
    simpa [Step.text, h2] using this
  · have := r5 _ (List.mem_cons_of_mem _ (List.mem_cons_of_mem _ (List.mem_cons_self _ _)))
    simpa [Step.text] using this
  · have := r5 _ (List.mem_cons_of_mem _ (List.mem_cons_of_mem _ (List.mem_cons_of_mem _
      (List.mem_cons_self _ _))))
    simpa [Step.text, h3] using this
  · have := r5 _ (List.mem_cons_of_mem _ (List.mem_cons_of_mem _ (List.mem_cons_of_mem _
      (List.mem_cons_of_mem _ (List.mem_cons_self _ _)))))
    simpa [Step.text, h4] using this
  · have := r5 _ (List.mem_cons_of_mem _ (List.mem_cons_of_mem _ (List.mem_cons_of_mem _
      (List.mem_cons_of_mem _ (List.mem_cons_of_mem _ (List.mem_cons_self _ _))))))
    simpa [Step.text] using this
  · intro p hp
    rw [r6 p hp, hw4]
  · rw [r3, hw4]
    rfl

set_option maxRecDepth 100000 in
/-- Witness of C7: the sample run. -/
theorem GenerateKeys_six_files_witness :
    (GenerateKeys refLib sampleRun).1 = Exit.returned ∧
    (GenerateKeys refLib sampleRun).2.journal =
      ["root_private_ecdsa.pem", "root_public_ecdsa.pem", "root_cert_ecdsa.pem",
       "leaf_private_ecdsa.pem", "leaf_public_ecdsa.pem", "leaf_cert_ecdsa.pem"] ∧
    (GenerateKeys refLib sampleRun).2.files "leaf_cert_ecdsa.pem"
      = some (pemEncode ⟨"CERTIFICATE", sampleLeafCert.Raw⟩) :=
  have h := GenerateKeys_six_files refLib sampleRun sampleBuilt sampleRootKey sampleLeafKey
    sampleRootCert sampleLeafCert sample_built _ _ _ _ rfl rfl rfl rfl (by decide)
  ⟨h.1, h.2.2.1, h.2.2.2.2.2.2.2.2.1⟩

/-- C2: in a run of `GenerateKeys` whose keys and certificates are built, split the
six saves as `pre`, the step `s` and `post` (so `s` is the `k`-th save for
`k = pre.length + 1`, any `k` from 1 to 6).  If every save of `pre` succeeds and
`s` fails, then the run returns after one line on standard error that names the
save function of `s`; the files of `pre` hold their texts (no rollback); every
file of `post` is as it was before the run, and none of them is created: the
files created are those of `pre`, and at most that of `s`. -/
theorem GenerateKeys_stops_at_failed_save (L : CryptoLib) (w w4 : World)
    (rootPrivateKey leafPrivateKey : PrivateKey) (rootCert leafCert : Certificate)
    (hb : Built L w rootPrivateKey rootCert leafPrivateKey leafCert w4)
    (pre : List Step) (s : Step) (post : List Step)
    (hplan : plan L rootPrivateKey rootCert leafPrivateKey leafCert = pre ++ s :: post)
    (hok : ∀ a ∈ pre, a.saves w = true) (hfail : s.fails w = true) :
    (GenerateKeys L w).1 = Exit.returned ∧
    (∃ e, (GenerateKeys L w).2.stderr = w.stderr ++ [s.caller ++ ": " ++ e ++ "\n"]) ∧
    (GenerateKeys L w).2.stdout = w.stdout ++ pre.map Step.confirmation ∧
    (∀ a ∈ pre, (GenerateKeys L w).2.files a.path = some a.text) ∧
    (∀ a ∈ post, (GenerateKeys L w).2.files a.path = w.files a.path) ∧
    ((GenerateKeys L w).2.journal = w.journal ++ pre.map Step.path ∨
     (GenerateKeys L w).2.journal = w.journal ++ pre.map Step.path ++ [s.path]) ∧
    (∀ a ∈ post, a.path ∉ pre.map Step.path ++ [s.path]) := by
  have hw4 := hb.world
  have hnodup := plan_nodup L rootPrivateKey rootCert leafPrivateKey leafCert
  rw [hplan] at hnodup
  have hsplit : pre ++ s :: post = (pre ++ [s]) ++ post := by simp
  have hnodup1 : ((pre ++ [s]).map Step.path).Nodup := by
    rw [hsplit, List.map_append] at hnodup
    exact (List.nodup_append.mp hnodup).1
  have hpost : ∀ a ∈ post, a.path ∉ (pre ++ [s]).map Step.path := by
    intro a ha hmem
    rw [hsplit, List.map_append] at hnodup
    exact (List.nodup_append.mp hnodup).2.2 hmem (List.mem_map_of_mem _ ha)
  obtain ⟨r1, ⟨e, r2⟩, r3, r4, r5, r6⟩ := runSteps_stops pre s post w4
    (fun a ha => by rw [Step.saves_congr a w w4 (by rw [hw4]) (by rw [hw4])]; exact hok a ha)
    (by rw [Step.fails_congr s w w4 (by rw [hw4]) (by rw [hw4])]; exact hfail) hnodup1
  rw [hb.run, hplan]
  refine ⟨r1, ⟨e, ?_⟩, ?_, r4, ?_, ?_, ?_⟩
  · rw [r2, hw4]
  · rw [r3, hw4]
  · intro a ha
    rw [r5 _ (hpost a ha), hw4]
  · rcases r6 with h | h
    · left; rw [h, hw4]
    · right; rw [h, hw4]; simp
  · intro a ha
    simpa using hpost a ha

set_option maxRecDepth 100000 in
/-- Witness of C2 for `k = 3`: the sample run in a world where the root certificate
cannot be created on disk. -/
theorem GenerateKeys_stops_at_failed_save_witness :
    (GenerateKeys refLib sampleDenied).1 = Exit.returned ∧
    (GenerateKeys refLib sampleDenied).2.stderr =
      ["saveCertificateToFile: os.Create: open root_cert_ecdsa.pem: permission denied\n"] ∧
    (GenerateKeys refLib sampleDenied).2.files "root_private_ecdsa.pem" =
      some (pemEncode ⟨"EC PRIVATE KEY", putNat 5 ++ wirePublicKey.put (publicOf Curve.P256 5)⟩) ∧
    (GenerateKeys refLib sampleDenied).2.files "leaf_private_ecdsa.pem" = none :=
  have h := GenerateKeys_stops_at_failed_save refLib sampleDenied
    { sampleDenied with ticks := 4, draws := 4 } sampleRootKey sampleLeafKey
    sampleRootCert sampleLeafCert
    ⟨{ sampleDenied with draws := 1 }, { sampleDenied with ticks := 2, draws := 2 },
     { sampleDenied with ticks := 2, draws := 3 }, rfl, rfl, rfl, rfl⟩
    ((plan refLib sampleRootKey sampleRootCert sampleLeafKey sampleLeafCert).take 2)
    ⟨"root_cert_ecdsa.pem", "CERTIFICATE", Outcome.ok sampleRootCert.Raw,
      "", "saveCertificateToFile", "ECDSA root certificate"⟩
    ((plan refLib sampleRootKey sampleRootCert sampleLeafKey sampleLeafCert).drop 3)
    rfl (by decide) (by decide)
  ⟨h.1, by decide, h.2.2.2.1 _ (List.mem_cons_self _ _),
   h.2.2.2.2.1 _ (List.mem_cons_self _ _)⟩

set_option maxRecDepth 100000 in
/-- C1, the code at two failing inputs.  When `createLeafCertificate` returns an
error the run does not halt: it prints the error, then creates five files and
prints five confirmations, and then calls `saveCertificateToFile` with the `nil`
leaf certificate, which panics.  When `createRootCertificate` returns an error
the run does not halt either: it prints the error, generates the leaf key and
calls `createLeafCertificate` with the `nil` root certificate (the clock is read
four times: twice for the root template, twice for the leaf template), which
panics in the library. -/
theorem GenerateKeys_goes_on_after_failed_certificate :
    (createLeafCertificate refLib (some sampleRootCert) sampleLeafKey.PublicKey sampleRootKey
        { sampleLeafFails with ticks := 2, draws := 3 }).1
      = Outcome.err "failed to create certificate: entropy source failed" ∧
    (GenerateKeys refLib sampleLeafFails).2.stderr
      = ["createLeafCertificate: failed to create certificate: entropy source failed\n"] ∧
    (GenerateKeys refLib sampleLeafFails).2.journal
      = ["root_private_ecdsa.pem", "root_public_ecdsa.pem", "root_cert_ecdsa.pem",
         "leaf_private_ecdsa.pem", "leaf_public_ecdsa.pem"] ∧
    (GenerateKeys refLib sampleLeafFails).2.stdout.length = 5 ∧
    (GenerateKeys refLib sampleLeafFails).1 = Exit.panicked nilDereference ∧
    (createRootCertificate refLib sampleRootKey { sampleRootFails with draws := 1 }).1
      = Outcome.err "failed to create certificate: entropy source failed" ∧
    (GenerateKeys refLib sampleRootFails).2.stderr
      = ["createRootCertificate: failed to create certificate: entropy source failed\n"] ∧
    (GenerateKeys refLib sampleRootFails).2.ticks = 4 ∧
    (GenerateKeys refLib sampleRootFails).1 = Exit.panicked nilDereference := by
  decide

/-- The fields of a certificate returned by `createRootCertificate`, under the
contract of the library. -/
theorem createRootCertificate_fields {L : CryptoLib} (hL : L.Lawful) {key : PrivateKey}
    {w : World} {cert : Certificate}
    (h : (createRootCertificate L key w).1 = Outcome.ok cert) :
    cert.Subject = rootName ∧ cert.Issuer = rootName ∧
    cert.PublicKey = some key.PublicKey ∧
    L.CheckSignature key.PublicKey cert.RawTBSCertificate cert.Signature = true ∧
    cert.BasicConstraintsValid = true ∧ cert.IsCA = false ∧
    cert.KeyUsage = KeyUsageKeyEncipherment := by
  obtain ⟨der, hder, hparse⟩ := createRootCertificate_ok h
  obtain ⟨-, hsub, hiss, hpub, hku, hbc, hca, hsig⟩ :=
    hL.create_parse _ _ _ _ _ _ _ hder hparse
  exact ⟨hsub, hiss, hpub, hsig, by rw [hbc]; rfl, by rw [hca]; rfl, by rw [hku]; rfl⟩

/-- The fields of a certificate returned by `createLeafCertificate`, under the
contract of the library. -/
theorem createLeafCertificate_fields {L : CryptoLib} (hL : L.Lawful) {parent : Certificate}
    {leafPub : PublicKey} {signerKey : PrivateKey} {w : World} {cert : Certificate}
    (h : (createLeafCertificate L (some parent) leafPub signerKey w).1 = Outcome.ok cert) :
    cert.Subject = leafName ∧ cert.Issuer = parent.Subject ∧
    cert.PublicKey = some leafPub ∧
    L.CheckSignature signerKey.PublicKey cert.RawTBSCertificate cert.Signature = true := by
  obtain ⟨der, hder, hparse⟩ := createLeafCertificate_ok h
  obtain ⟨-, hsub, hiss, hpub, -, -, -, hsig⟩ :=
    hL.create_parse _ _ _ _ _ _ _ hder hparse
  exact ⟨hsub, hiss, hpub, hsig⟩

/-- C3, for every successful build under the contract of the library: the issuer
of the leaf is the subject of the root, the signature of the leaf verifies under
the public key of the root, and the root verifies under its own key; but the
root certificate asserts basic constraints without `cA` and a key usage without
`keyCertSign`, so it is not accepted as an issuer and chain verification of the
leaf against the root fails. -/
theorem bootstrap_chain_not_verified (L : CryptoLib) (hL : L.Lawful) (w w4 : World)
    (rootPrivateKey leafPrivateKey : PrivateKey) (rootCert leafCert : Certificate)
    (hb : Built L w rootPrivateKey rootCert leafPrivateKey leafCert w4) :
    leafCert.Issuer = rootCert.Subject ∧
    signedBy L leafCert rootCert = true ∧
    signedBy L rootCert rootCert = true ∧
    rootCert.IsCA = false ∧
    rootCert.KeyUsage &&& KeyUsageCertSign = 0 ∧
    acceptedAsIssuer rootCert = false ∧
    verifyChain L leafCert rootCert = false := by
  obtain ⟨w1, w2, w3, h1, h2, h3, h4⟩ := hb
  have hroot : (createRootCertificate L rootPrivateKey w1).1 = Outcome.ok rootCert := by rw [h2]
  have hleaf : (createLeafCertificate L (some rootCert) leafPrivateKey.PublicKey
      rootPrivateKey w3).1 = Outcome.ok leafCert := by rw [h4]
  obtain ⟨-, -, rpub, rsig, hbc, hca, hku⟩ := createRootCertificate_fields hL hroot
  obtain ⟨-, liss, -, lsig⟩ := createLeafCertificate_fields hL hleaf
  have hacc : acceptedAsIssuer rootCert = false := by simp [acceptedAsIssuer, hbc, hca]
  refine ⟨liss, ?_, ?_, hca, ?_, hacc, ?_⟩
  · simp [signedBy, rpub, lsig]
  · simp [signedBy, rpub, rsig]
  · rw [hku]; rfl
  · simp [verifyChain, hacc]

set_option maxRecDepth 100000 in
/-- Witness of C3: the certificates of the sample run. -/
theorem bootstrap_chain_not_verified_witness :
    signedBy refLib sampleLeafCert sampleRootCert = true ∧
    acceptedAsIssuer sampleRootCert = false ∧
    verifyChain refLib sampleLeafCert sampleRootCert = false :=
  have h := bootstrap_chain_not_verified refLib refLib_lawful sampleRun sampleBuilt
    sampleRootKey sampleLeafKey sampleRootCert sampleLeafCert sample_built
  ⟨h.2.1, h.2.2.2.2.2.1, h.2.2.2.2.2.2⟩

/-! ## Validity period and names -/

set_option maxRecDepth 100000 in
/-- C10 fails: the issuer of the leaf template is a literal, not a copy.  For a
parent named "Another Authority" the template names "Root Common Name" as
issuer, while the certificate that the library returns is issued by the
parent. -/
theorem leafTemplate_issuer_not_copied :
    (leafTemplate sampleRun.Local (sampleRun.clock 0) (sampleRun.clock 1)).Issuer ≠ otherParent.Subject ∧
    (certOf (createLeafCertificate refLib (some otherParent) sampleLeafKey.PublicKey
      sampleRootKey sampleRun).1).Issuer = otherParent.Subject := by
  decide

/-- C10 as amended: the issuer name of the leaf template is the fixed root identity
(common name "Root Common Name", organization "Root Organisation Name", country
"Country") whatever the parent is; it equals the subject of the parent when the
parent was returned by `createRootCertificate`; the subject of the template is
the fixed leaf identity (common name "Leaf Common Name", organization "Leaf
Organisation Name", country "Country"). -/
theorem leafTemplate_names (L : CryptoLib) (hL : L.Lawful) (key : PrivateKey) (w0 : World)
    (parent : Certificate)
    (hparent : (createRootCertificate L key w0).1 = Outcome.ok parent) (w : World) :
    (leafTemplate w.Local (w.clock w.ticks) (w.clock (w.ticks + 1))).Issuer =
      { CommonName := "Root Common Name", Organization := ["Root Organisation Name"],
        Country := ["Country"] } ∧
    (leafTemplate w.Local (w.clock w.ticks) (w.clock (w.ticks + 1))).Issuer = parent.Subject ∧
    (leafTemplate w.Local (w.clock w.ticks) (w.clock (w.ticks + 1))).Subject =
      { CommonName := "Leaf Common Name", Organization := ["Leaf Organisation Name"],
        Country := ["Country"] } := by
  obtain ⟨hsub, -⟩ := createRootCertificate_fields hL hparent
  refine ⟨rfl, ?_, rfl⟩
  rw [hsub]
  rfl

set_option maxRecDepth 100000 in
/-- Witness of C10 as amended: the root certificate of the sample run as parent. -/
theorem leafTemplate_names_witness :
    (leafTemplate UTC 2 3).Issuer = sampleRootCert.Subject ∧
    (leafTemplate UTC 2 3).Subject = leafName :=
  have h := leafTemplate_names refLib refLib_lawful sampleRootKey (sampleWorld 0 [some 6])
    sampleRootCert (by decide) { sampleRun with ticks := 2 }
  ⟨h.2.1, h.2.2⟩

/-! ## Base64 -/

set_option maxRecDepth 100000 in
theorem special_b64Char_fin : ∀ n : Fin 64, special (b64Char n.val) = false := by
  decide

theorem special_b64Char (n : Nat) : special (b64Char n) = false := by
  have h := special_b64Char_fin ⟨n % 64, Nat.mod_lt _ (by decide)⟩
  have e : b64Char (n % 64) = b64Char n := by simp [b64Char]
  simpa [e] using h

/-- Every character of a base64 text is in the alphabet or is the padding. -/
theorem b64Encode_chars : ∀ (bs : Bytes) (x : Char), x ∈ b64Encode bs →
    (∃ n, x = b64Char n) ∨ x = '='
  | [], x, h => by simp [b64Encode] at h
  | [a], x, h => by
    simp only [b64Encode, List.mem_cons, List.mem_singleton, List.mem_nil_iff, or_false] at h
    rcases h with h | h | h | h
    · exact Or.inl ⟨_, h⟩
    · exact Or.inl ⟨_, h⟩
    · exact Or.inr h
    · exact Or.inr h
  | [a, b], x, h => by
    simp only [b64Encode, List.mem_cons, List.mem_singleton, List.mem_nil_iff, or_false] at h
    rcases h with h | h | h | h
    · exact Or.inl ⟨_, h⟩
    · exact Or.inl ⟨_, h⟩
    · exact Or.inl ⟨_, h⟩
    · exact Or.inr h
  | a :: b :: c :: rest, x, h => by
    simp only [b64Encode, List.mem_cons] at h
    rcases h with h | h | h | h | h
    · exact Or.inl ⟨_, h⟩
    · exact Or.inl ⟨_, h⟩
    · exact Or.inl ⟨_, h⟩
    · exact Or.inl ⟨_, h⟩
    · exact b64Encode_chars rest x h

/-- A base64 text holds no line break, dash, colon or blank. -/
theorem b64Encode_plain (bs : Bytes) (x : Char) (h : x ∈ b64Encode bs) :
    x ≠ '\n' ∧ x ≠ '\r' ∧ x ≠ '-' ∧ x ≠ ':' ∧ x ≠ ' ' ∧ x ≠ '\t' := by
  rcases b64Encode_chars bs x h with ⟨n, hn⟩ | hp
  · have hs := special_b64Char n
    rw [← hn] at hs
    simp only [special, Bool.or_eq_false_iff, beq_eq_false_iff_ne, ne_eq] at hs
    tauto
  · subst hp
    decide

/-! ## The line breaker -/

theorem lineBreaker_cons (fuel : Nat) (c : Char) (s : List Char) :
    lineBreaker (fuel + 1) (c :: s) =
      (c :: s).take 64 ++ '\n' :: lineBreaker fuel ((c :: s).drop 64) := by
  simp [lineBreaker, pemLineLength]

/-- The lines that the line breaker writes: their concatenation is the input, each
has from 1 to 64 characters, and all but the last have 64. -/
theorem lineBreaker_lines (fuel : Nat) : ∀ s : List Char, s.length ≤ fuel →
    ∃ body : List (List Char),
      lineBreaker fuel s = (body.map (fun l => l ++ ['\n'])).flatten ∧
      body.flatten = s ∧
      (∀ l ∈ body, 0 < l.length ∧ l.length ≤ 64) ∧
      (∀ l ∈ body.dropLast, l.length = 64) := by
  induction fuel with
  | zero =>
    intro s hs
    have : s = [] := List.length_eq_zero.mp (by omega)
    subst this
    exact ⟨[], by simp [lineBreaker], rfl, by simp, by simp⟩
  | succ fuel ih =>
    intro s hs
    cases s with
    | nil => exact ⟨[], by simp [lineBreaker], rfl, by simp, by simp⟩
    | cons c s =>
      have hlen : ((c :: s).drop 64).length ≤ fuel := by
        simp only [List.length_drop, List.length_cons] at *
        omega
      obtain ⟨body, h1, h2, h3, h4⟩ := ih _ hlen
      refine ⟨(c :: s).take 64 :: body, ?_, ?_, ?_, ?_⟩
      · rw [lineBreaker_cons, h1]
        simp
      · rw [List.flatten_cons, h2, List.take_append_drop]
      · intro l hl
        rcases List.mem_cons.mp hl with hl | hl
        · subst hl
          simp only [List.length_take, List.length_cons]
          omega
        · exact h3 l hl
      · intro l hl
        cases body with
        | nil => simp at hl
        | cons b body =>
          rw [List.dropLast_cons₂] at hl
          rcases List.mem_cons.mp hl with hl | hl
          · subst hl
            have hb : 0 < b.length := (h3 b (List.mem_cons_self _ _)).1
            have hj : b.length ≤ ((c :: s).drop 64).length := by
              rw [← h2]
              simp
            simp only [List.length_take, List.length_drop, List.length_cons] at *
            omega
          · exact h4 l hl

theorem trimRight_nil : trimRight [] = [] := rfl

/-- A file written with success holds the text of the block. -/
theorem writePEM_files (b : Block) (path : String) (w : World)
    (h : (writePEM b path w).1 = Outcome.ok ()) :
    (writePEM b path w).2.files path = some (pemEncode b) := by
  cases hc : canWrite w path (pemEncode b) with
  | true =>
    rw [writePEM_ok b path w hc]
    simp [wrote]
  | false =>
    obtain ⟨e, he⟩ := writePEM_fail b path w hc
    rw [he] at h
    cases h

theorem savePrivateKeyToPEM_files (L : CryptoLib) (key : PrivateKey) (path : String) (w : World)
    (der : Bytes) (hder : L.MarshalECPrivateKey key = Outcome.ok der)
    (h : (savePrivateKeyToPEM L key path w).1 = Outcome.ok ()) :
    (savePrivateKeyToPEM L key path w).2.files path
      = some (pemEncode ⟨"EC PRIVATE KEY", der⟩) := by
  simp only [savePrivateKeyToPEM, hder] at h ⊢
  exact writePEM_files _ _ _ h

theorem savePublicKeyToPEM_files (L : CryptoLib) (key : PublicKey) (path : String) (w : World)
    (der : Bytes) (hder : L.MarshalPKIXPublicKey key = Outcome.ok der)
    (h : (savePublicKeyToPEM L key path w).1 = Outcome.ok ()) :
    (savePublicKeyToPEM L key path w).2.files path
      = some (pemEncode ⟨"EC PUBLIC KEY", der⟩) := by
  simp only [savePublicKeyToPEM, hder] at h ⊢
  exact writePEM_files _ _ _ h

theorem saveCertificateToFile_files (cert : Certificate) (path : String) (w : World)
    (h : (saveCertificateToFile (some cert) path w).1 = Outcome.ok ()) :
    (saveCertificateToFile (some cert) path w).2.files path
      = some (pemEncode ⟨"CERTIFICATE", cert.Raw⟩) := by
  simp only [saveCertificateToFile] at h ⊢
  exact writePEM_files _ _ _ h

/-- The text of a block has the layout with lines of 64 characters. -/
theorem pemEncode_layout (b : Block) : PemLayout 64 b.BlockType b.Bytes (pemEncode b) := by
  obtain ⟨body, h1, h2, h3, h4⟩ :=
    lineBreaker_lines (b64Encode b.Bytes).length (b64Encode b.Bytes) (le_refl _)
  refine ⟨body, ?_, h2, ?_, h4⟩
  · rw [pemEncode, h1]
  · intro l hl
    refine ⟨?_, h3 l hl⟩
    intro hmem
    have : '\n' ∈ b64Encode b.Bytes := by
      rw [← h2]
      exact List.mem_flatten.mpr ⟨l, hl, hmem⟩
    exact (b64Encode_plain _ _ this).1 rfl

/-- C9 as amended: the file written by `savePrivateKeyToPEM`, `savePublicKeyToPEM`
or `saveCertificateToFile` is a line `-----BEGIN <LABEL>-----` (with the labels
`EC PRIVATE KEY`, `EC PUBLIC KEY`, `CERTIFICATE`), then the base64 text of the
DER payload wrapped at 64 characters (every payload line but the last has
exactly 64 characters, the last from 1 to 64), then a line `-----END <LABEL>-----`
with the same label. -/
theorem saved_text_layout (L : CryptoLib) (path : String) (w : World) :
    (∀ (key : PrivateKey) (der : Bytes), L.MarshalECPrivateKey key = Outcome.ok der →
      (savePrivateKeyToPEM L key path w).1 = Outcome.ok () →
      (savePrivateKeyToPEM L key path w).2.files path
          = some (pemEncode ⟨"EC PRIVATE KEY", der⟩) ∧
        PemLayout 64 "EC PRIVATE KEY" der (pemEncode ⟨"EC PRIVATE KEY", der⟩)) ∧
    (∀ (key : PublicKey) (der : Bytes), L.MarshalPKIXPublicKey key = Outcome.ok der →
      (savePublicKeyToPEM L key path w).1 = Outcome.ok () →
      (savePublicKeyToPEM L key path w).2.files path
          = some (pemEncode ⟨"EC PUBLIC KEY", der⟩) ∧
        PemLayout 64 "EC PUBLIC KEY" der (pemEncode ⟨"EC PUBLIC KEY", der⟩)) ∧
    (∀ (cert : Certificate),
      (saveCertificateToFile (some cert) path w).1 = Outcome.ok () →
      (saveCertificateToFile (some cert) path w).2.files path
          = some (pemEncode ⟨"CERTIFICATE", cert.Raw⟩) ∧
        PemLayout 64 "CERTIFICATE" cert.Raw (pemEncode ⟨"CERTIFICATE", cert.Raw⟩)) := by
  refine ⟨?_, ?_, ?_⟩
  · intro key der hder h
    exact ⟨savePrivateKeyToPEM_files L key path w der hder h,
      pemEncode_layout ⟨"EC PRIVATE KEY", der⟩⟩
  · intro key der hder h
    exact ⟨savePublicKeyToPEM_files L key path w der hder h,
      pemEncode_layout ⟨"EC PUBLIC KEY", der⟩⟩
  · intro cert h
    exact ⟨saveCertificateToFile_files cert path w h,
      pemEncode_layout ⟨"CERTIFICATE", cert.Raw⟩⟩

set_option maxRecDepth 100000 in
/-- Witness of C9 as amended: the file of the sample root certificate. -/
theorem saved_text_layout_witness :
    (saveCertificateToFile (some sampleRootCert) "root_cert_ecdsa.pem" sampleBuilt).2.files
        "root_cert_ecdsa.pem" = some (pemEncode ⟨"CERTIFICATE", sampleRootCert.Raw⟩) ∧
    PemLayout 64 "CERTIFICATE" sampleRootCert.Raw
      (pemEncode ⟨"CERTIFICATE", sampleRootCert.Raw⟩) :=
  (saved_text_layout refLib "root_cert_ecdsa.pem" sampleBuilt).2.2 sampleRootCert (by decide)

set_option maxRecDepth 1000000 in
/-- Three facts about the text of the sample block. -/
theorem sampleBlock_facts :
    (b64Encode sampleRootCert.Raw).length = 352 ∧
    (pemEncode sampleBlock)[28 + 64]? = some '\n' ∧
    (((pemEncode sampleBlock).drop 28).takeWhile (fun c => c != '\n')).length = 64 := by
  decide

set_option maxRecDepth 100000 in
/-- C9 fails: the payload is wrapped at 64 characters, the line length of
`encoding/pem`, not at 76.  The file written for the sample root certificate
holds the text of its block; the first payload line of that text has 64
characters, and the text does not have the layout with lines of 76
characters. -/
theorem saved_text_not_wrapped_at_76 :
    (saveCertificateToFile (some sampleRootCert) "root_cert_ecdsa.pem" sampleBuilt).2.files
      "root_cert_ecdsa.pem" = some (pemEncode sampleBlock) ∧
    (((pemEncode sampleBlock).drop 28).takeWhile (fun c => c != '\n')).length = 64 ∧
    ¬ PemLayout 76 "CERTIFICATE" sampleRootCert.Raw (pemEncode sampleBlock) := by
  obtain ⟨hlen, hnl, hfirst⟩ := sampleBlock_facts
  refine ⟨saveCertificateToFile_files sampleRootCert _ sampleBuilt (by decide), hfirst, ?_⟩
  rintro ⟨body, htext, hflat, hlines, hfull⟩
  match body, htext, hflat, hlines, hfull with
  | [], _, hflat, _, _ =>
    rw [← hflat] at hlen
    simp at hlen
  | [l0], _, hflat, hlines, _ =>
    have h1 := (hlines l0 (List.mem_cons_self _ _)).2.2
    have h2 : l0 = b64Encode sampleRootCert.Raw := by simpa using hflat
    rw [h2, hlen] at h1
    omega
  | l0 :: l1 :: rest, htext, _, hlines, hfull =>
    have h76 : l0.length = 76 := hfull l0 (by simp)
    have hno : '\n' ∉ l0 := (hlines l0 (List.mem_cons_self _ _)).1
    have hP : ("-----BEGIN ".toList ++ "CERTIFICATE".toList ++ "-----\n".toList).length = 28 := rfl
    have hR : pemEncode sampleBlock =
        ("-----BEGIN ".toList ++ "CERTIFICATE".toList ++ "-----\n".toList) ++
          (l0 ++ (['\n'] ++ (((l1 :: rest).map (fun l => l ++ ['\n'])).flatten ++
            ("-----END ".toList ++ ("CERTIFICATE".toList ++ "-----\n".toList))))) := by
      rw [htext]
      simp only [List.map_cons, List.flatten_cons, List.append_assoc]
    rw [hR, List.getElem?_append_right (by rw [hP]; omega), hP] at hnl
    have h64 : 28 + 64 - 28 = 64 := rfl
    rw [h64, List.getElem?_append_left (by omega)] at hnl
    exact hno (List.getElem?_mem hnl)

end Keygen
